import Mathlib

/-!
A shallow embedding of the Hanabi game-session engine (`hanabi.py`) and proofs
about it.  The database rows are modelled as plain Lean data: a session row is
a `GameState`, held-card rows become `hands` (a list of option-card slots per
player position), fireworks rows become the `fireworks` list (one entry per
colour), deck-reserve rows the `reserves` association list, and action-log rows
the `log` list.  Players are identified by their 0-based seating position
(player ids are in bijection with positions, established at join time).
Python's unbounded ints that can go negative are modelled as `Int`
(`tokens_remaining`, `errors_remaining`, fireworks values); naturally
non-negative quantities (counts, positions, turn numbers) as `Nat`.
`random.Random(seed)` is modelled by an abstract deterministic generator
`g : String -> Nat -> Nat -> Nat` mapping (seed, draw index within the
generator's life, bound) to a value, reduced mod the bound exactly as
`randrange` guarantees a value in `[0, bound)`.
-/

/-- `CardType` from hanabi.py: a card's colour and numeric value. -/
structure CardType where
  colour : Nat
  numValue : Nat
deriving DecidableEq, Repr

/-- `CARD_DIST_PER_COLOUR = [3, 2, 2, 2, 1]`. -/
def cardDistPerColour : List Nat := [3, 2, 2, 2, 1]

/-- `MAX_NUM_VALUE = len(CARD_DIST_PER_COLOUR)`. -/
def maxNumValue : Nat := cardDistPerColour.length

/-- `MAX_PLAYERS = 5`. -/
def maxPlayers : Nat := 5

/-- `MAX_NAME_LENGTH = 250`. -/
def maxNameLength : Nat := 250

/-- config.py `ERRORS_ALLOWED = 3` (as `Int`, the type of `errors_remaining`). -/
def errorsAllowed : Int := 3

/-- config.py `TOKEN_COUNT = 8` (as `Int`, the type of `tokens_remaining`). -/
def tokenCount : Int := 8

/-- config.py `COLOUR_COUNT = 5`. -/
def colourCountCfg : Nat := 5

/-- config.py `POST_ACTION_TIME_LIMIT_SECONDS = 30`. -/
def postActionTimeLimitCfg : Nat := 30

/-- config.py `POST_ACTION_MINIMAL_TIME_SECONDS = 10`. -/
def postActionMinTimeCfg : Nat := 10

/-- `ActionType` enum from hanabi.py. -/
inductive ActionType where
  | HINT
  | DISCARD
  | PLAY
deriving DecidableEq, Repr, BEq

/-- One `ActionLog` row.  `player` is the acting player's seating position;
`hintPositions` is the comma-joined string stored in the DB column. -/
structure LogEntry where
  turn : Nat
  actionType : ActionType
  player : Nat
  colour : Option Nat
  numValue : Option Nat
  handPos : Option Nat
  wasError : Bool
  hintPositions : Option String
  hintTarget : Option Nat
deriving DecidableEq, Repr

/-- The deck-reserve rows for one session: remaining count per card type, in
insertion order (Python dict preserves insertion order; the cumulative-range
draw below depends on that order). -/
abbrev Deck := List (CardType × Nat)

/-- `Deck.total_left`: the Python class caches the sum incrementally; in every
use inside hanabi.py the cached value equals the sum of the counts (the deck is
always built from non-negative counts with distinct card types), so we compute
it. -/
def deckTotal (d : Deck) : Nat := (d.map Prod.snd).sum

/-- The state of `random.Random(seed)`: the seed string plus how many draws
have been made from this generator instance. -/
structure Rng where
  seed : String
  step : Nat
deriving DecidableEq, Repr

/-- `rng.randrange(bound)`: deterministic in the seed and the number of values
produced so far.  The abstract generator `g` is reduced mod the bound, which is
exactly the `randrange` contract (a value in `[0, bound)` for positive bound). -/
def Rng.next (g : String → Nat → Nat → Nat) (r : Rng) (bound : Nat) : Nat × Rng :=
  (g r.seed r.step bound % bound, ⟨r.seed, r.step + 1⟩)

/-- The selection loop of `Deck.draw`: walk the card types accumulating counts
and return the first type whose cumulative count exceeds the selected index. -/
def pickByCumulative : Deck → Nat → Option CardType
  | [], _ => none
  | (ct, left) :: rest, ix => if ix < left then some ct else pickByCumulative rest (ix - left)

/-- `self.cards[card_type] -= 1`: decrement the (unique) entry for the given
card type. -/
def decFirst : Deck → CardType → Deck
  | [], _ => []
  | (ct, c) :: rest, t => if ct = t then (ct, c - 1) :: rest else (ct, c) :: decFirst rest t

/-- `Deck.draw(rng)`: pick a uniformly random index below the remaining total,
map it to a card type by cumulative ranges, and decrement that type.  `none`
covers both the `randrange(0)` failure and the `GameStateError` raised when no
type matches. -/
def Deck.draw1 (g : String → Nat → Nat → Nat) (d : Deck) (r : Rng) :
    Option (CardType × Deck × Rng) :=
  if deckTotal d = 0 then none
  else
    let p := Rng.next g r (deckTotal d)
    match pickByCumulative d p.1 with
    | none => none
    | some ct => some (ct, decFirst d ct, p.2)

/-- Draw `n` cards in sequence from one generator (the loop body of
`_draw_cards`). -/
def drawSeqGo (g : String → Nat → Nat → Nat) : Nat → Deck → Rng →
    Option (List CardType × Deck × Rng)
  | 0, d, r => some ([], d, r)
  | n + 1, d, r =>
    match Deck.draw1 g d r with
    | none => none
    | some (ct, d', r') =>
      match drawSeqGo g n d' r' with
      | none => none
      | some (cs, d'', r'') => some (ct :: cs, d'', r'')

/-- `_draw_cards`: fails up front (ActionNotValid) when fewer cards remain than
positions requested, then draws one card per position. -/
def drawSeq (g : String → Nat → Nat → Nat) (n : Nat) (d : Deck) (r : Rng) :
    Option (List CardType × Deck × Rng) :=
  if deckTotal d < n then none else drawSeqGo g n d r

/-- The errors the engine can signal: `ActionNotValid` (user-facing rejection,
HTTP 400/409) and `GameStateError` (fatal internal inconsistency, HTTP 500).
An error always aborts the surrounding transaction, so the caller's state is
unchanged. -/
inductive HErr where
  | actionNotValid
  | gameStateError
deriving DecidableEq, Repr

/-- One `hanabi_session` row together with its owned rows.
`hands` is indexed by seating position; each hand is a list of
`cards_in_hand` option slots.  `endTurnAt` is an abstract timestamp. -/
structure GameState where
  playersPresent : Nat
  turn : Nat
  tokensRemaining : Int
  errorsRemaining : Int
  maxTokens : Int
  colourCount : Nat
  cardsInHand : Nat
  postActionTimeLimit : Nat
  postActionMinTime : Nat
  activePlayer : Option Nat
  endTurnAt : Option Nat
  needDraw : Bool
  stopGameAfter : Option Nat
  finalScore : Option Int
  fireworks : List Int
  hands : List (List (Option CardType))
  reserves : Deck
  log : List LogEntry
  playerNames : List String
deriving DecidableEq, Repr

/-- A freshly spawned session (`HanabiSession()` with the column defaults). -/
def initialSession : GameState :=
  { playersPresent := 0
    turn := 0
    tokensRemaining := 0
    errorsRemaining := errorsAllowed
    maxTokens := tokenCount
    colourCount := colourCountCfg
    cardsInHand := 0
    postActionTimeLimit := postActionTimeLimitCfg
    postActionMinTime := postActionMinTimeCfg
    activePlayer := none
    endTurnAt := none
    needDraw := false
    stopGameAfter := none
    finalScore := none
    fireworks := []
    hands := []
    reserves := []
    log := []
    playerNames := [] }

/-- `HanabiSession.game_running`. -/
def GameState.gameRunning (s : GameState) : Bool := s.activePlayer.isSome

/-- `HanabiSession.current_seed` (production branch):
`str(self.turn) + pepper + SECRET_KEY.hex()`. -/
def current_seed (s : GameState) (pepper secret : String) : String :=
  toString s.turn ++ (pepper ++ secret)

/-- `query_hand_for_current_player`: a list of `cards_in_hand` slots with the
player's held cards filled in by position. -/
def queryHand (s : GameState) (p : Nat) : List (Option CardType) :=
  (List.range s.cardsInHand).map fun i => (s.hands.getD p []).getD i none

/-- The free-slot search in `draw_card`: the first position holding no card. -/
def firstFreeSlot : List (Option CardType) → Option Nat
  | [] => none
  | none :: _ => some 0
  | some _ :: rest => (firstFreeSlot rest).map (· + 1)

/-- `draw_card`: draw one card for the given player into their first free hand
slot, using a fresh generator seeded from the current turn.  Returns the new
state, the remaining deck size, and the drawn card (the `HeldCard` row the
Python function inserts).  `ActionNotValid` when the hand is full or the deck
holds fewer than one card; `GameStateError` when the inner selection fails. -/
def draw_card (g : String → Nat → Nat → Nat) (s : GameState) (p : Nat)
    (pepper secret : String) : Except HErr (GameState × Nat × CardType) :=
  match firstFreeSlot (queryHand s p) with
  | none => .error .actionNotValid
  | some pos =>
    if deckTotal s.reserves < 1 then .error .actionNotValid
    else
      match Deck.draw1 g s.reserves ⟨current_seed s pepper secret, 0⟩ with
      | none => .error .gameStateError
      | some (ct, d', _) =>
          .ok ({ s with
                  hands := s.hands.set p ((s.hands.getD p []).set pos (some ct))
                  reserves := d' },
               deckTotal d', ct)

/-- `stop_game`: clear the lifecycle fields and record the final score. -/
def stop_game (s : GameState) (score : Int) : GameState :=
  { s with
      activePlayer := none
      stopGameAfter := none
      endTurnAt := none
      needDraw := false
      finalScore := some score }

/-- `end_turn`.  Bails out when no deadline is pending; finalizes with score 0
when the error budget is exhausted; finalizes with the current score when the
score is maximal or the active player equals the stop-after trigger; otherwise
performs the owed draw (a failed draw is swallowed; drawing the last card arms
the stop-after trigger on the player who just acted) and advances to the next
seat.  A `GameStateError` from the draw, or a missing active/next player row,
propagates (aborting the transaction). -/
def end_turn (g : String → Nat → Nat → Nat) (s : GameState) (pepper secret : String) :
    Except HErr GameState :=
  match s.endTurnAt with
  | none => .ok s
  | some _ =>
    if s.errorsRemaining = 0 then .ok (stop_game s 0)
    else
      if s.fireworks.sum = ((s.colourCount * maxNumValue : Nat) : Int) ∨
          s.activePlayer = s.stopGameAfter then
        .ok (stop_game s s.fireworks.sum)
      else
        match s.activePlayer with
        | none => .error .gameStateError
        | some p =>
          let drawRes : Except HErr GameState :=
            if s.needDraw then
              match draw_card g s p pepper secret with
              | .ok (s', totalLeft, _) =>
                  .ok (if totalLeft = 0 then { s' with stopGameAfter := some p } else s')
              | .error .actionNotValid => .ok s
              | .error .gameStateError => .error .gameStateError
            else .ok s
          match drawRes with
          | .error e => .error e
          | .ok s2 =>
            if s2.playersPresent = 0 then .error .gameStateError
            else
              .ok { s2 with
                      needDraw := false
                      endTurnAt := none
                      activePlayer := some ((p + 1) % s2.playersPresent)
                      turn := s2.turn + 1 }

/-- `use_card`: validate the position, take the active player's card at that
position out of their hand, and return it. -/
def use_card (s : GameState) (pos : Nat) : Except HErr (CardType × GameState) :=
  if pos < s.cardsInHand then
    match s.activePlayer with
    | none => .error .actionNotValid
    | some p =>
      match (s.hands.getD p []).getD pos none with
      | none => .error .actionNotValid
      | some ct =>
          .ok (ct, { s with hands := s.hands.set p ((s.hands.getD p []).set pos none) })
  else .error .actionNotValid

/-- `finish_action`: append the log row, flag the owed draw, and schedule the
end-of-turn deadline `post_action_time_limit` after now. -/
def finish_action (s : GameState) (log : LogEntry) (now : Nat) : GameState :=
  { s with
      log := s.log ++ [log]
      needDraw := true
      endTurnAt := some (now + s.postActionTimeLimit) }

/-- `play_card`: take the card, test playability against the fireworks value
for its colour, advance the stack or burn an error, refund a token for a
completed series (value 5) below the cap, and log the play. -/
def play_card (s : GameState) (pos : Nat) (now : Nat) : Except HErr GameState :=
  match use_card s pos with
  | .error e => .error e
  | .ok (ct, s1) =>
    match s1.fireworks.get? ct.colour with
    | none => .error .gameStateError
    | some fw =>
      let playable := fw = (ct.numValue : Int) - 1
      let s2 :=
        if playable then
          let s2a := { s1 with fireworks := s1.fireworks.set ct.colour (ct.numValue : Int) }
          if ct.numValue = 5 ∧ s2a.tokensRemaining < s2a.maxTokens then
            { s2a with tokensRemaining := s2a.tokensRemaining + 1 }
          else s2a
        else { s1 with errorsRemaining := s1.errorsRemaining - 1 }
      match s2.activePlayer with
      | none => .error .gameStateError
      | some p =>
        .ok (finish_action s2
              { turn := s2.turn
                actionType := .PLAY
                player := p
                colour := some ct.colour
                numValue := some ct.numValue
                handPos := some pos
                wasError := decide (¬ playable)
                hintPositions := none
                hintTarget := none } now)

/-- `discard_card`: forbidden at the token cap; otherwise take the card, credit
one token, and log the discard. -/
def discard_card (s : GameState) (pos : Nat) (now : Nat) : Except HErr GameState :=
  if s.tokensRemaining = s.maxTokens then .error .actionNotValid
  else
    match use_card s pos with
    | .error e => .error e
    | .ok (ct, s1) =>
      let s2 := { s1 with tokensRemaining := s1.tokensRemaining + 1 }
      match s2.activePlayer with
      | none => .error .gameStateError
      | some p =>
        .ok (finish_action s2
              { turn := s2.turn
                actionType := .DISCARD
                player := p
                colour := some ct.colour
                numValue := some ct.numValue
                handPos := some pos
                wasError := false
                hintPositions := none
                hintTarget := none } now)

/-- `give_hint`: exactly one of colour/value, no self-hints, a token must be
available, the target must exist; collects the target's matching hand
positions in ascending order into the comma-joined string the UI consumes, and
spends a token. -/
def give_hint (s : GameState) (target : Nat) (colour numValue : Option Nat) (now : Nat) :
    Except HErr GameState :=
  if colour.isNone = numValue.isNone then .error .actionNotValid
  else if s.activePlayer = some target then .error .actionNotValid
  else if s.tokensRemaining = 0 then .error .actionNotValid
  else if s.playersPresent ≤ target then .error .actionNotValid
  else
    match s.activePlayer with
    | none => .error .gameStateError
    | some p =>
      let hand := s.hands.getD target []
      let positions := (List.range s.cardsInHand).filter fun i =>
        match hand.getD i none, colour with
        | some c, some col => c.colour == col
        | some c, none => some c.numValue == numValue
        | none, _ => false
      let posString := String.intercalate "," (positions.map toString)
      .ok (finish_action { s with tokensRemaining := s.tokensRemaining - 1 }
            { turn := s.turn
              actionType := .HINT
              player := p
              colour := colour
              numValue := numValue
              handPos := none
              wasError := false
              hintPositions := some posString
              hintTarget := some target } now)

/-- `hand_size = 5 if session.players_present in (2, 3) else 4`. -/
def handSizeFor (n : Nat) : Nat := if n = 2 ∨ n = 3 then 5 else 4

/-- The field resets `init_session` performs before dealing: counters to their
configured maximums, score cleared, turn zeroed, hand size fixed, fireworks
zeroed per colour, and the old held-card / reserve / log rows deleted. -/
def resetForInit (s : GameState) : GameState :=
  { s with
      tokensRemaining := s.maxTokens
      errorsRemaining := errorsAllowed
      finalScore := none
      turn := 0
      cardsInHand := handSizeFor s.playersPresent
      fireworks := List.replicate s.colourCount (0 : Int)
      hands := []
      reserves := []
      log := [] }

/-- The full fresh deck of `init_session`:
`(CardType(colour=col, num_value=ix + 1), count)` for each colour and each
entry of `CARD_DIST_PER_COLOUR`. -/
def fullDeck (colourCount : Nat) : Deck :=
  (List.range colourCount).flatMap fun col =>
    cardDistPerColour.enum.map fun p => (CardType.mk col (p.1 + 1), p.2)

/-- Deal full hands to players at positions `0..k-1` in order from one shared
generator; the list head is position 0's hand.  Each player's draws go through
the `_draw_cards` batch (`drawSeq`). -/
def dealHands (g : String → Nat → Nat → Nat) : Nat → Nat → Deck → Rng →
    Option (List (List (Option CardType)) × Deck × Rng)
  | 0, _, d, r => some ([], d, r)
  | k + 1, hs, d, r =>
    match drawSeq g hs d r with
    | none => none
    | some (cs, d', r') =>
      match dealHands g k hs d' r' with
      | none => none
      | some (rest, d'', r'') => some (cs.map some :: rest, d'', r'')

/-- The deal of `init_session`: a generator seeded from the reset session's
seed (turn 0) suffixed with `'init'`, drawing every player's hand from the
fresh deck. -/
def initDeal (g : String → Nat → Nat → Nat) (s : GameState) (pepper secret : String) :
    Option (List (List (Option CardType)) × Deck × Rng) :=
  dealHands g s.playersPresent (handSizeFor s.playersPresent)
    (fullDeck s.colourCount) ⟨current_seed (resetForInit s) pepper secret ++ "init", 0⟩

/-- `init_session`: no-op when already running; `GameStateError` with fewer
than two players (the Python code raises after resetting fields, but the
aborted transaction leaves the row unchanged, which the `Except` error
models); otherwise reset, deal, seat position 0, and store the leftover deck
as the reserves. -/
def init_session (g : String → Nat → Nat → Nat) (s : GameState) (pepper secret : String) :
    Except HErr GameState :=
  if s.activePlayer.isSome then .ok s
  else if s.playersPresent < 2 then .error .gameStateError
  else
    match initDeal g s pepper secret with
    | none => .error .actionNotValid
    | some (hands, deckRest, _) =>
        .ok { resetForInit s with activePlayer := some 0, hands := hands, reserves := deckRest }

/-- The POST branch of `manage_session`: no-op when running with no score yet
(already initialised); a 409 below two players; otherwise (also when a final
score is set, which the code comments call a session reset) initialise. -/
def manage_session_post (g : String → Nat → Nat → Nat) (s : GameState)
    (pepper secret : String) : Except HErr GameState :=
  if s.activePlayer.isSome && s.finalScore.isNone then .ok s
  else if s.playersPresent < 2 then .error .actionNotValid
  else init_session g s pepper secret

/-- `session_join`: rejected (409) when the game is running or
`players_present > MAX_PLAYERS`; otherwise append the player at the next seat
and return that position. -/
def session_join (s : GameState) (name : String) : Except HErr (GameState × Nat) :=
  if s.activePlayer.isSome || decide (s.playersPresent > maxPlayers) then
    .error .actionNotValid
  else
    .ok ({ s with
            playersPresent := s.playersPresent + 1
            playerNames := s.playerNames ++ [name.take maxNameLength] },
         s.playersPresent)

/-- `advance`: requires a running game (the caller being the active player is
implicit in the model) and a pending deadline; ends the turn when the minimal
post-action time has elapsed, else reschedules the deadline to the earliest
allowed instant and reports 425. -/
def advance (g : String → Nat → Nat → Nat) (s : GameState) (pepper secret : String)
    (now : Nat) : Except HErr (GameState × Nat) :=
  if s.activePlayer.isNone then .error .actionNotValid
  else
    match s.endTurnAt with
    | none => .error .actionNotValid
    | some t =>
      let playerActedAt := t - s.postActionTimeLimit
      let earliest := playerActedAt + s.postActionMinTime
      if earliest ≤ now then
        match end_turn g s pepper secret with
        | .error e => .error e
        | .ok s' => .ok (s', 200)
      else .ok ({ s with endTurnAt := some earliest }, 425)

/-- `_eot_heartbeat_tasks`: run `end_turn` only when a deadline is set and has
elapsed (in the sequential model the unlocked read and the re-check under the
lock collapse into one check); an error from `end_turn` aborts the transaction,
leaving the state unchanged. -/
def heartbeat (g : String → Nat → Nat → Nat) (s : GameState) (pepper secret : String)
    (now : Nat) : GameState :=
  match s.endTurnAt with
  | none => s
  | some t =>
    if t < now then
      match end_turn g s pepper secret with
      | .ok s' => s'
      | .error _ => s
    else s

/-- `Status` enum. -/
inductive Status where
  | INITIAL
  | PLAYER_THINKING
  | TURN_END
  | GAME_OVER
deriving DecidableEq, Repr

/-- One entry of the `players` list in a state response; `hand` is filled for
players other than the viewer when a viewer identity is supplied. -/
structure PlayerView where
  position : Nat
  name : String
  hand : Option (List (Option CardType))
deriving DecidableEq, Repr

/-- The response of `session_state`; `none` marks the JSON keys the code omits
in the given status. -/
structure SessionView where
  players : List PlayerView
  colourCount : Nat
  turn : Nat
  maxTokens : Int
  status : Status
  score : Option Int
  activePlayer : Option Nat
  currentFireworks : Option (List Int)
  errorsRemaining : Option Int
  tokensRemaining : Option Int
  cardsRemaining : Option Nat
  cardsInHand : Option Nat
  usedHandSlots : Option (List Bool)
  lastAction : Option LogEntry
  endTurnAt : Option Nat
deriving DecidableEq, Repr

/-- `query_fireworks_status`: the per-colour stack values as a dense list. -/
def query_fireworks_status (s : GameState) : List Int :=
  (List.range s.colourCount).map fun c => s.fireworks.getD c 0

/-- The view `query_hands_for_others` produces of one player other than the
viewer: their full hand, slot by slot (`null` for empty slots). -/
def otherHandView (s : GameState) (q : Nat) : List (Option CardType) :=
  (List.range s.cardsInHand).map fun i => (s.hands.getD q []).getD i none

/-- The `calling_player_used_slots` list of `query_hands_for_others`: which of
the viewer's own slots hold a card (never the card's identity). -/
def usedSlotsView (s : GameState) (v : Nat) : List Bool :=
  (List.range s.cardsInHand).map fun i => ((s.hands.getD v []).getD i none).isSome

/-- `HanabiSession.current_action`: the log row for the current turn. -/
def current_action (s : GameState) : Option LogEntry :=
  s.log.find? fun e => e.turn == s.turn

/-- The roster part of the response: when a viewer is supplied, every other
player's full hand is attached and the viewer's own entry carries no hand. -/
def playerViews (s : GameState) (viewer : Option Nat) : List PlayerView :=
  (List.range s.playersPresent).map fun q =>
    { position := q
      name := s.playerNames.getD q ""
      hand :=
        match viewer with
        | none => none
        | some v => if q = v then none else some (otherHandView s q) }

/-- `session_state`: the viewer-scoped response.  `viewer = none` is the
management view (public fields only). -/
def session_state (s : GameState) (viewer : Option Nat) : SessionView :=
  let base : SessionView :=
    { players := playerViews s none
      colourCount := s.colourCount
      turn := s.turn
      maxTokens := s.maxTokens
      status := Status.INITIAL
      score := none
      activePlayer := none
      currentFireworks := none
      errorsRemaining := none
      tokensRemaining := none
      cardsRemaining := none
      cardsInHand := none
      usedHandSlots := none
      lastAction := none
      endTurnAt := none }
  if s.activePlayer.isNone then
    if s.finalScore.isNone then base
    else { base with status := Status.GAME_OVER, score := s.finalScore }
  else
    { base with
        players := playerViews s viewer
        activePlayer := s.activePlayer
        currentFireworks := some (query_fireworks_status s)
        errorsRemaining := some s.errorsRemaining
        tokensRemaining := some s.tokensRemaining
        cardsRemaining := some (deckTotal s.reserves)
        cardsInHand := some s.cardsInHand
        usedHandSlots := viewer.map fun v => usedSlotsView s v
        status := if s.endTurnAt.isNone then Status.PLAYER_THINKING else Status.TURN_END
        lastAction := if s.endTurnAt.isNone then none else current_action s
        endTurnAt := s.endTurnAt }

/-- The logical operations reaching one session, each tagged with the
wall-clock instant the request arrives (`now`), as routed by the Flask layer.
Card actions are performed by the active player (the routes reject others
before touching any state). -/
inductive GAction where
  | join (name : String)
  | start
  | play (pos : Nat) (now : Nat)
  | discard (pos : Nat) (now : Nat)
  | hint (target : Nat) (colour : Option Nat) (numValue : Option Nat) (now : Nat)
  | endTurn
deriving DecidableEq, Repr

/-- One request against one session: route-level guards (`_ensure_active_player`
and the pending-deadline check for card actions), then the engine operation; a
raised error aborts the transaction, leaving the committed state unchanged. -/
def step (g : String → Nat → Nat → Nat) (pepper secret : String)
    (s : GameState) : GAction → GameState
  | .join name =>
    match session_join s name with
    | .ok (s', _) => s'
    | .error _ => s
  | .start =>
    match manage_session_post g s pepper secret with
    | .ok s' => s'
    | .error _ => s
  | .play pos now =>
    if s.activePlayer.isSome && s.endTurnAt.isNone then
      match play_card s pos now with
      | .ok s' => s'
      | .error _ => s
    else s
  | .discard pos now =>
    if s.activePlayer.isSome && s.endTurnAt.isNone then
      match discard_card s pos now with
      | .ok s' => s'
      | .error _ => s
    else s
  | .hint target colour numValue now =>
    if s.activePlayer.isSome && s.endTurnAt.isNone then
      match give_hint s target colour numValue now with
      | .ok s' => s'
      | .error _ => s
    else s
  | .endTurn =>
    match end_turn g s pepper secret with
    | .ok s' => s'
    | .error _ => s

/-- Run a list of requests in order. -/
def runActions (g : String → Nat → Nat → Nat) (pepper secret : String)
    (s : GameState) (l : List GAction) : GameState :=
  l.foldl (step g pepper secret) s

/-! ## Concrete states and a fixed generator used by witnesses and
counterexamples -/

/-- A concrete deterministic generator (always selects index 0, i.e. the first
remaining card type). -/
def gZero : String → Nat → Nat → Nat := fun _ _ _ => 0

/-- A running two-player session awaiting an action, with the initial hands of
the test suite's fixed seed. -/
def demoState : GameState :=
  { playersPresent := 2, turn := 0, tokensRemaining := 8, errorsRemaining := 3,
    maxTokens := 8, colourCount := 5, cardsInHand := 4,
    postActionTimeLimit := 30, postActionMinTime := 10,
    activePlayer := some 0, endTurnAt := none, needDraw := false,
    stopGameAfter := none, finalScore := none,
    fireworks := [0, 0, 0, 0, 0],
    hands := [[some ⟨4, 1⟩, some ⟨3, 2⟩, some ⟨4, 1⟩, some ⟨4, 3⟩],
              [some ⟨1, 1⟩, some ⟨1, 5⟩, some ⟨1, 3⟩, some ⟨4, 5⟩]],
    reserves := [(⟨0, 1⟩, 3), (⟨0, 2⟩, 2), (⟨0, 3⟩, 2)],
    log := [], playerNames := ["tester1", "tester2"] }

/-- A running two-player session in the turn-end phase with a draw owed and an
empty draw pile, errors and score both short of their limits, and no final-lap
trigger armed. -/
def c2State : GameState :=
  { playersPresent := 2, turn := 6, tokensRemaining := 5, errorsRemaining := 2,
    maxTokens := 8, colourCount := 5, cardsInHand := 4,
    postActionTimeLimit := 30, postActionMinTime := 10,
    activePlayer := some 0, endTurnAt := some 100, needDraw := true,
    stopGameAfter := none, finalScore := none,
    fireworks := [1, 0, 0, 0, 0],
    hands := [[some ⟨0, 1⟩, none, some ⟨4, 1⟩, some ⟨4, 3⟩],
              [some ⟨1, 1⟩, some ⟨1, 5⟩, some ⟨1, 3⟩, some ⟨4, 5⟩]],
    reserves := [],
    log := [], playerNames := ["a", "b"] }

/-- `c2State` with the error budget exhausted. -/
def c3State : GameState := { c2State with errorsRemaining := 0 }

/-- A finished session (`final_score` set, lifecycle fields cleared by
`stop_game`) with two seated players. -/
def c4State : GameState :=
  { playersPresent := 2, turn := 9, tokensRemaining := 4, errorsRemaining := 1,
    maxTokens := 8, colourCount := 5, cardsInHand := 5,
    postActionTimeLimit := 30, postActionMinTime := 10,
    activePlayer := none, endTurnAt := none, needDraw := false,
    stopGameAfter := none, finalScore := some 7,
    fireworks := [5, 2, 0, 0, 0],
    hands := [[some ⟨0, 1⟩, none, none, none, none],
              [some ⟨1, 1⟩, none, none, none, none]],
    reserves := [(⟨2, 1⟩, 3), (⟨2, 2⟩, 2)],
    log := [], playerNames := ["a", "b"] }

/-- A not-yet-started session whose roster is exactly at the `MAX_PLAYERS`
capacity. -/
def c10State : GameState :=
  { initialSession with playersPresent := 5, playerNames := ["a", "b", "c", "d", "e"] }

/-- The bounds invariant of C7, strengthened with the facts needed for
preservation: the token cap is non-negative, and a running session awaiting an
action always has at least one error left (otherwise the previous end-turn
would have finalized it). -/
def Inv7 (s : GameState) : Prop :=
  0 ≤ s.tokensRemaining ∧ s.tokensRemaining ≤ s.maxTokens ∧
  0 ≤ s.errorsRemaining ∧ s.errorsRemaining ≤ errorsAllowed ∧
  0 ≤ s.maxTokens ∧
  (s.activePlayer.isSome = true → s.endTurnAt = none → 1 ≤ s.errorsRemaining)

/-- The number of cards in one hand. -/
def handCount (h : List (Option CardType)) : Nat := h.countP fun c => c.isSome

/-- The number of cards held across all hands. -/
def handsCount (hs : List (List (Option CardType))) : Nat := (hs.map handCount).sum

/-- Log rows that removed a card from a hand (plays and discards). -/
def isCardAction (e : LogEntry) : Bool :=
  e.actionType == ActionType.PLAY || e.actionType == ActionType.DISCARD

/-- The number of cards discarded or played so far according to the log. -/
def logCardCount (l : List LogEntry) : Nat := l.countP isCardAction

/-- The conserved quantity of C5: remaining reserves, plus cards held in
hands, plus cards played or discarded per the log. -/
def totalCards (s : GameState) : Nat :=
  deckTotal s.reserves + handsCount s.hands + logCardCount s.log

/-- The conservation invariant of C5, strengthened with the structural facts
needed for preservation: the colour count is the configured constant, reserve
keys are distinct, a pending deadline implies a running game, the active
player is seated with well-formed hands, and — once the game has started or
ended — the card count is conserved. -/
def Inv5 (s : GameState) : Prop :=
  s.colourCount = 5 ∧
  (s.reserves.map Prod.fst).Nodup ∧
  (s.endTurnAt.isSome = true → s.activePlayer.isSome = true) ∧
  (∀ p, s.activePlayer = some p →
    p < s.playersPresent ∧ s.hands.length = s.playersPresent ∧
    ∀ h ∈ s.hands, h.length = s.cardsInHand) ∧
  ((s.activePlayer.isSome = true ∨ s.finalScore.isSome = true) →
    totalCards s = s.colourCount * cardDistPerColour.sum)

def c9Hand : List (Option CardType) := [some ⟨2, 2⟩, some ⟨0, 5⟩, some ⟨1, 1⟩, some ⟨2, 3⟩]

def setTime (s : GameState) (e : Option Nat) : GameState := { s with endTurnAt := e }

def eraseTime (s : GameState) : GameState := { s with endTurnAt := none }

def playResultState (s1 : GameState) (ct : CardType) (fw : Int) : GameState :=
  if fw = (ct.numValue : Int) - 1 then
    if ct.numValue = 5 ∧ s1.tokensRemaining < s1.maxTokens then
      { s1 with fireworks := s1.fireworks.set ct.colour (ct.numValue : Int),
                tokensRemaining := s1.tokensRemaining + 1 }
    else { s1 with fireworks := s1.fireworks.set ct.colour (ct.numValue : Int) }
  else { s1 with errorsRemaining := s1.errorsRemaining - 1 }

/-- The cards dealt (inserted as `HeldCard` rows) by one request: the whole
initial deal for a successful game start, the owed draw for a successful
end-turn, nothing otherwise. -/
def stepTrace (g : String → Nat → Nat → Nat) (pepper secret : String)
    (s : GameState) : GAction → List CardType
  | .start =>
    if s.activePlayer.isSome then []
    else if s.playersPresent < 2 then []
    else
      match initDeal g s pepper secret with
      | none => []
      | some (hands, _, _) => (hands.map (List.filterMap id)).flatten
  | .endTurn =>
    match s.endTurnAt with
    | none => []
    | some _ =>
      if s.errorsRemaining = 0 then []
      else if s.fireworks.sum = ((s.colourCount * maxNumValue : Nat) : Int) ∨
          s.activePlayer = s.stopGameAfter then []
      else
        match s.activePlayer with
        | none => []
        | some p =>
          if s.needDraw then
            match draw_card g s p pepper secret with
            | .ok (_, _, ct) => [ct]
            | .error _ => []
          else []
  | _ => []

/-- The concatenated deal trace of a request sequence. -/
def runTrace (g : String → Nat → Nat → Nat) (pepper secret : String) :
    GameState → List GAction → List CardType
  | _, [] => []
  | s, a :: l => stepTrace g pepper secret s a ++
      runTrace g pepper secret (step g pepper secret s a) l

/-- Two requests agree up to their wall-clock timestamps. -/
def actionMatches : GAction → GAction → Bool
  | .join n1, .join n2 => n1 == n2
  | .start, .start => true
  | .play p1 _, .play p2 _ => p1 == p2
  | .discard p1 _, .discard p2 _ => p1 == p2
  | .hint t1 c1 v1 _, .hint t2 c2 v2 _ => t1 == t2 && c1 == c2 && v1 == v2
  | .endTurn, .endTurn => true
  | _, _ => false

def actionsMatch : List GAction → List GAction → Bool
  | [], [] => true
  | a :: l1, b :: l2 => actionMatches a b && actionsMatch l1 l2
  | _, _ => false

/-- Two session states that agree except possibly on the pending deadline's
wall-clock value (same presence/absence of a deadline). -/
def TimeRel (s₁ s₂ : GameState) : Prop :=
  eraseTime s₁ = eraseTime s₂ ∧ s₁.endTurnAt.isSome = s₂.endTurnAt.isSome

/-! ## Helper lemmas -/

/-- A successful `draw_card` changes only the hands and the reserves. -/
theorem draw_card_ok_fields (g : String → Nat → Nat → Nat) (s : GameState) (p : Nat)
    (pepper secret : String) (s' : GameState) (n : Nat) (ct : CardType)
    (h : draw_card g s p pepper secret = .ok (s', n, ct)) :
    s'.finalScore = s.finalScore ∧ s'.errorsRemaining = s.errorsRemaining ∧
    s'.playersPresent = s.playersPresent ∧ s'.turn = s.turn ∧
    s'.stopGameAfter = s.stopGameAfter ∧ s'.needDraw = s.needDraw ∧
    s'.endTurnAt = s.endTurnAt ∧ s'.tokensRemaining = s.tokensRemaining ∧
    s'.activePlayer = s.activePlayer := by
  unfold draw_card at h
  split at h
  · exact absurd h (by simp)
  · split at h
    · exact absurd h (by simp)
    · split at h
      · exact absurd h (by simp)
      · simp only [Except.ok.injEq, Prod.mk.injEq] at h
        obtain ⟨h1, _, _⟩ := h
        rw [← h1]
        exact ⟨rfl, rfl, rfl, rfl, rfl, rfl, rfl, rfl, rfl⟩

/-- In-range list access yields the `getD` value. -/
theorem fireworks_get?_eq (l : List Int) (n : Nat) (h : n < l.length) :
    l.get? n = some (l.getD n 0) := by
  rw [List.getD_eq_getElem?_getD, List.get?_eq_getElem?]
  cases hq : l[n]? with
  | none => exact absurd (List.getElem?_eq_none_iff.mp hq) (by omega)
  | some x => rfl

/-! ## The claims -/

/-- C1: for a running session awaiting an action and an occupied position of
the active player's hand, `play_card` logs a non-error iff the fireworks value
for the card's colour equals the card's value minus one beforehand; when
playable it sets that stack to the card's value and refunds a token for a
maximal-value card unless the token count is at the cap; when not playable it
decrements the error count. -/
theorem C1_play_card_spec (s : GameState) (p pos : Nat) (ct : CardType) (now : Nat)
    (hact : s.activePlayer = some p)
    (hpos : pos < s.cardsInHand)
    (hcard : (s.hands.getD p []).getD pos none = some ct)
    (hfw : ct.colour < s.fireworks.length)
    (htok : s.tokensRemaining ≤ s.maxTokens) :
    ∃ s' e, play_card s pos now = .ok s' ∧ s'.log = s.log ++ [e] ∧
      (e.wasError = false ↔ s.fireworks.getD ct.colour 0 = (ct.numValue : Int) - 1) ∧
      (s.fireworks.getD ct.colour 0 = (ct.numValue : Int) - 1 →
        s'.fireworks = s.fireworks.set ct.colour (ct.numValue : Int) ∧
        s'.errorsRemaining = s.errorsRemaining ∧
        s'.tokensRemaining =
          (if ct.numValue = maxNumValue ∧ s.tokensRemaining ≠ s.maxTokens
           then s.tokensRemaining + 1 else s.tokensRemaining)) ∧
      (s.fireworks.getD ct.colour 0 ≠ (ct.numValue : Int) - 1 →
        s'.errorsRemaining = s.errorsRemaining - 1 ∧
        s'.fireworks = s.fireworks ∧ s'.tokensRemaining = s.tokensRemaining) := by
  have huse : use_card s pos =
      .ok (ct, { s with hands := s.hands.set p ((s.hands.getD p []).set pos none) }) := by
    unfold use_card
    rw [if_pos hpos, hact]
    simp only []
    rw [hcard]
  have hget : s.fireworks.get? ct.colour = some (s.fireworks.getD ct.colour 0) :=
    fireworks_get?_eq s.fireworks ct.colour hfw
  unfold play_card
  rw [huse]
  simp only []
  rw [hget]
  simp only []
  by_cases hpl : s.fireworks.getD ct.colour 0 = (ct.numValue : Int) - 1
  · rw [if_pos hpl]
    by_cases h5 : ct.numValue = 5 ∧ s.tokensRemaining < s.maxTokens
    · rw [if_pos h5]
      rw [hact]
      simp only []
      refine ⟨_, _, rfl, rfl, ?_, ?_, ?_⟩
      · simp [hpl]
      · intro _
        refine ⟨rfl, rfl, ?_⟩
        rw [if_pos ⟨h5.1.trans (by decide), by omega⟩]
        exact rfl
      · intro hc; exact absurd hpl hc
    · rw [if_neg h5]
      rw [hact]
      simp only []
      refine ⟨_, _, rfl, rfl, ?_, ?_, ?_⟩
      · simp [hpl]
      · intro _
        refine ⟨rfl, rfl, ?_⟩
        rw [if_neg ?_]
        · exact rfl
        · rintro ⟨ha, hb⟩
          exact h5 ⟨ha.trans (by decide), by omega⟩
      · intro hc; exact absurd hpl hc
  · rw [if_neg hpl]
    rw [hact]
    simp only []
    refine ⟨_, _, rfl, rfl, ?_, ?_, ?_⟩
    · simp [hpl]
    · intro hc; exact absurd hc hpl
    · intro _; exact ⟨rfl, rfl, rfl⟩

/-- Witness for C1: `demoState`, playing the card `(colour 4, value 1)` at
position 0. -/
theorem C1_play_card_spec_witness :
    (demoState.activePlayer = some 0 ∧ 0 < demoState.cardsInHand ∧
     (demoState.hands.getD 0 []).getD 0 none = some ⟨4, 1⟩ ∧
     (4 : Nat) < demoState.fireworks.length ∧
     demoState.tokensRemaining ≤ demoState.maxTokens) ∧
    (∃ s' e, play_card demoState 0 7 = .ok s' ∧ s'.log = demoState.log ++ [e] ∧
      (e.wasError = false ↔ demoState.fireworks.getD 4 0 = ((1 : Nat) : Int) - 1) ∧
      (demoState.fireworks.getD 4 0 = ((1 : Nat) : Int) - 1 →
        s'.fireworks = demoState.fireworks.set 4 ((1 : Nat) : Int) ∧
        s'.errorsRemaining = demoState.errorsRemaining ∧
        s'.tokensRemaining =
          (if (1 : Nat) = maxNumValue ∧ demoState.tokensRemaining ≠ demoState.maxTokens
           then demoState.tokensRemaining + 1 else demoState.tokensRemaining)) ∧
      (demoState.fireworks.getD 4 0 ≠ ((1 : Nat) : Int) - 1 →
        s'.errorsRemaining = demoState.errorsRemaining - 1 ∧
        s'.fireworks = demoState.fireworks ∧
        s'.tokensRemaining = demoState.tokensRemaining)) :=
  ⟨⟨rfl, by decide, rfl, by decide, by decide⟩,
   C1_play_card_spec demoState 0 0 ⟨4, 1⟩ 7 rfl (by decide) rfl (by decide) (by decide)⟩

/-- C2 counterexample: on `c2State` every precondition of the claim holds (a
deadline is pending, the session is not finalized for errors or maximal score,
a draw is owed and the draw pile is empty), yet `end_turn` leaves the final-lap
trigger unarmed (`stopGameAfter` stays `none` instead of becoming the acting
player `0` as the claim requires). -/
theorem C2_failed_draw_does_not_arm_trigger :
    c2State.needDraw = true ∧ deckTotal c2State.reserves = 0 ∧
    c2State.errorsRemaining ≠ 0 ∧
    c2State.fireworks.sum ≠ ((c2State.colourCount * maxNumValue : Nat) : Int) ∧
    c2State.activePlayer = some 0 ∧ c2State.endTurnAt = some 100 ∧
    (end_turn gZero c2State "pp" "ss").map (fun s => (s.stopGameAfter, s.finalScore))
      = .ok (none, none) := by
  refine ⟨rfl, rfl, by decide, by decide, rfl, rfl, rfl⟩

/-- C2 (amended): during `end_turn` on a session with a pending deadline that is
not finalized for errors or maximal score, the session is finalized with the
current score exactly when the player who just acted (still the active player)
equals the final-lap trigger; otherwise, if a draw is owed and the pile is
empty, the failed draw is not an error — the turn advances with the trigger,
the final score and the error count unchanged; a successful owed draw arms the
trigger on the player who just acted exactly when it empties the pile. -/
theorem C2_end_turn_final_lap (g : String → Nat → Nat → Nat) (pepper secret : String)
    (s : GameState) (t p : Nat)
    (hdl : s.endTurnAt = some t) (herr : s.errorsRemaining ≠ 0)
    (hscore : s.fireworks.sum ≠ ((s.colourCount * maxNumValue : Nat) : Int))
    (hact : s.activePlayer = some p) (hnp : 0 < s.playersPresent) :
    (s.stopGameAfter = some p → end_turn g s pepper secret = .ok (stop_game s s.fireworks.sum)) ∧
    (s.stopGameAfter ≠ some p → s.needDraw = true → deckTotal s.reserves = 0 →
      end_turn g s pepper secret = .ok { s with
        needDraw := false, endTurnAt := none,
        activePlayer := some ((p + 1) % s.playersPresent), turn := s.turn + 1 }) ∧
    (s.stopGameAfter ≠ some p → ∀ s', end_turn g s pepper secret = .ok s' →
      s'.finalScore = s.finalScore ∧ s'.errorsRemaining = s.errorsRemaining) ∧
    (s.stopGameAfter ≠ some p → s.needDraw = true →
      ∀ s1 n c, draw_card g s p pepper secret = .ok (s1, n, c) →
        ∀ s', end_turn g s pepper secret = .ok s' →
          s'.stopGameAfter = (if n = 0 then some p else s.stopGameAfter)) := by
  have hnz : ¬ s.playersPresent = 0 := by omega
  refine ⟨?_, ?_, ?_, ?_⟩
  · intro htrig
    simp [end_turn, hdl, herr, hact, htrig, stop_game]
  · intro htrig hneed hdeck
    have hcond : ¬ (s.fireworks.sum = ((s.colourCount * maxNumValue : Nat) : Int) ∨
        s.activePlayer = s.stopGameAfter) := by
      rintro (h | h)
      · exact hscore h
      · rw [hact] at h; exact htrig h.symm
    have hdraw : draw_card g s p pepper secret = .error .actionNotValid := by
      unfold draw_card
      split
      · rfl
      · rw [if_pos (by omega)]
    unfold end_turn
    split
    · simp_all
    · rw [if_neg herr, if_neg hcond]
      split
      · simp_all
      · next q hq =>
        rw [hact] at hq
        obtain rfl : p = q := by injection hq
        rw [if_pos hneed, hdraw]
        simp only []
        rw [if_neg hnz]
  · intro htrig s' hok
    have hcond : ¬ (s.fireworks.sum = ((s.colourCount * maxNumValue : Nat) : Int) ∨
        s.activePlayer = s.stopGameAfter) := by
      rintro (h | h)
      · exact hscore h
      · rw [hact] at h; exact htrig h.symm
    unfold end_turn at hok
    split at hok
    · simp_all
    · rw [if_neg herr, if_neg hcond] at hok
      split at hok
      · simp_all
      · next q hq =>
        rw [hact] at hq
        obtain rfl : p = q := by injection hq
        by_cases hneed : s.needDraw = true
        · rw [if_pos hneed] at hok
          rcases hdr : draw_card g s p pepper secret with e | ⟨s1, n, c⟩
          · rcases e
            · rw [hdr] at hok
              simp only [] at hok
              rw [if_neg hnz] at hok
              simp only [Except.ok.injEq] at hok
              rw [← hok]
              exact ⟨rfl, rfl⟩
            · rw [hdr] at hok
              simp only [] at hok
              exact absurd hok (by simp)
          · rw [hdr] at hok
            simp only [] at hok
            obtain ⟨hf1, hf2, hf3, _, _, _, _, _, _⟩ :=
              draw_card_ok_fields g s p pepper secret s1 n c hdr
            by_cases hz : n = 0
            · rw [if_pos hz] at hok
              rw [if_neg (show ¬ ({ s1 with stopGameAfter := some p } : GameState).playersPresent = 0 by
                simpa [hf3] using hnz)] at hok
              simp only [Except.ok.injEq] at hok
              rw [← hok]
              exact ⟨hf1, hf2⟩
            · rw [if_neg hz] at hok
              rw [if_neg (show ¬ s1.playersPresent = 0 by simpa [hf3] using hnz)] at hok
              simp only [Except.ok.injEq] at hok
              rw [← hok]
              exact ⟨hf1, hf2⟩
        · rw [if_neg hneed] at hok
          simp only [] at hok
          rw [if_neg hnz] at hok
          simp only [Except.ok.injEq] at hok
          rw [← hok]
          exact ⟨rfl, rfl⟩
  · intro htrig hneed s1 n c hdr s' hok
    have hcond : ¬ (s.fireworks.sum = ((s.colourCount * maxNumValue : Nat) : Int) ∨
        s.activePlayer = s.stopGameAfter) := by
      rintro (h | h)
      · exact hscore h
      · rw [hact] at h; exact htrig h.symm
    unfold end_turn at hok
    split at hok
    · simp_all
    · rw [if_neg herr, if_neg hcond] at hok
      split at hok
      · simp_all
      · next q hq =>
        rw [hact] at hq
        obtain rfl : p = q := by injection hq
        rw [if_pos hneed, hdr] at hok
        simp only [] at hok
        obtain ⟨_, _, hf3, _, hf5, _, _, _, _⟩ :=
          draw_card_ok_fields g s p pepper secret s1 n c hdr
        by_cases hz : n = 0
        · rw [if_pos hz] at hok
          rw [if_neg (show ¬ ({ s1 with stopGameAfter := some p } : GameState).playersPresent = 0 by
            simpa [hf3] using hnz)] at hok
          simp only [Except.ok.injEq] at hok
          rw [← hok, if_pos hz]
        · rw [if_neg hz] at hok
          rw [if_neg (show ¬ s1.playersPresent = 0 by simpa [hf3] using hnz)] at hok
          simp only [Except.ok.injEq] at hok
          rw [← hok, if_neg hz]
          exact hf5

/-- Witness for C2 (amended): `c2State` satisfies every hypothesis. -/
theorem C2_end_turn_final_lap_witness :
    (c2State.endTurnAt = some 100 ∧ c2State.errorsRemaining ≠ 0 ∧
     c2State.fireworks.sum ≠ ((c2State.colourCount * maxNumValue : Nat) : Int) ∧
     c2State.activePlayer = some 0 ∧ 0 < c2State.playersPresent) ∧
    ((c2State.stopGameAfter = some 0 →
        end_turn gZero c2State "pp" "ss" = .ok (stop_game c2State c2State.fireworks.sum)) ∧
     (c2State.stopGameAfter ≠ some 0 → c2State.needDraw = true →
        deckTotal c2State.reserves = 0 →
        end_turn gZero c2State "pp" "ss" = .ok { c2State with
          needDraw := false, endTurnAt := none,
          activePlayer := some ((0 + 1) % c2State.playersPresent),
          turn := c2State.turn + 1 }) ∧
     (c2State.stopGameAfter ≠ some 0 → ∀ s', end_turn gZero c2State "pp" "ss" = .ok s' →
        s'.finalScore = c2State.finalScore ∧
        s'.errorsRemaining = c2State.errorsRemaining) ∧
     (c2State.stopGameAfter ≠ some 0 → c2State.needDraw = true →
        ∀ s1 n c, draw_card gZero c2State 0 "pp" "ss" = .ok (s1, n, c) →
          ∀ s', end_turn gZero c2State "pp" "ss" = .ok s' →
            s'.stopGameAfter = (if n = 0 then some 0 else c2State.stopGameAfter))) :=
  ⟨⟨rfl, by decide, by decide, rfl, by decide⟩,
   C2_end_turn_final_lap gZero "pp" "ss" c2State 100 0 rfl (by decide) (by decide) rfl
     (by decide)⟩

/-- C3: whenever `end_turn` runs with a pending deadline and an exhausted error
budget, the session is finalized with score 0 and no draw is performed (hands,
reserves and log are untouched). -/
theorem C3_errors_exhausted_finalizes_zero (g : String → Nat → Nat → Nat)
    (pepper secret : String) (s : GameState) (t : Nat)
    (hdl : s.endTurnAt = some t) (herr : s.errorsRemaining = 0) :
    end_turn g s pepper secret = .ok (stop_game s 0) ∧
    (stop_game s 0).finalScore = some 0 ∧
    (stop_game s 0).hands = s.hands ∧ (stop_game s 0).reserves = s.reserves ∧
    (stop_game s 0).log = s.log := by
  refine ⟨?_, rfl, rfl, rfl, rfl⟩
  simp [end_turn, hdl, herr]

/-- Witness for C3: `c3State` (pending deadline, zero errors, a draw owed). -/
theorem C3_errors_exhausted_finalizes_zero_witness :
    (c3State.endTurnAt = some 100 ∧ c3State.errorsRemaining = 0) ∧
    (end_turn gZero c3State "pp" "ss" = .ok (stop_game c3State 0) ∧
     (stop_game c3State 0).finalScore = some 0 ∧
     (stop_game c3State 0).hands = c3State.hands ∧
     (stop_game c3State 0).reserves = c3State.reserves ∧
     (stop_game c3State 0).log = c3State.log) :=
  ⟨⟨rfl, rfl⟩, C3_errors_exhausted_finalizes_zero gZero "pp" "ss" c3State 100 rfl rfl⟩

/-- C4 counterexample: `c4State` is a finished session (`final_score = 7`),
yet a start-game request (`manage_session` POST) succeeds and re-initializes
it — the resulting state has `final_score = none`, so the session was mutated
without being deleted. -/
theorem C4_start_game_resets_finished_session :
    c4State.finalScore = some 7 ∧
    (manage_session_post gZero c4State "pp" "ss").map (fun s => s.finalScore)
      = .ok none := by
  exact ⟨rfl, rfl⟩

/-- C4 (amended): once `final_score` is set (and the lifecycle fields are
cleared, as `stop_game` leaves them), player actions, end-turn, heartbeats and
advance leave the session state unchanged — but a start-game request with at
least two players takes the re-initialization path (the code's documented
"session reset") rather than being a no-op. -/
theorem C4_finished_session_frozen (g : String → Nat → Nat → Nat)
    (pepper secret : String) (s : GameState) (sc : Int)
    (hfs : s.finalScore = some sc) (hact : s.activePlayer = none)
    (heta : s.endTurnAt = none) :
    (∀ pos now, step g pepper secret s (.play pos now) = s) ∧
    (∀ pos now, step g pepper secret s (.discard pos now) = s) ∧
    (∀ t c v now, step g pepper secret s (.hint t c v now) = s) ∧
    step g pepper secret s .endTurn = s ∧
    (∀ now, heartbeat g s pepper secret now = s) ∧
    (∀ now, advance g s pepper secret now = .error .actionNotValid) ∧
    (2 ≤ s.playersPresent → manage_session_post g s pepper secret = init_session g s pepper secret) := by
  refine ⟨?_, ?_, ?_, ?_, ?_, ?_, ?_⟩
  · intro pos now; simp [step, hact]
  · intro pos now; simp [step, hact]
  · intro t c v now; simp [step, hact]
  · simp [step, end_turn, heta]
  · intro now; simp [heartbeat, heta]
  · intro now; simp [advance, hact]
  · intro hp
    simp [manage_session_post, hact, hfs, Nat.not_lt_of_le hp]

/-- Witness for C4 (amended): `c4State`. -/
theorem C4_finished_session_frozen_witness :
    (c4State.finalScore = some 7 ∧ c4State.activePlayer = none ∧
     c4State.endTurnAt = none) ∧
    ((∀ pos now, step gZero "pp" "ss" c4State (.play pos now) = c4State) ∧
     (∀ pos now, step gZero "pp" "ss" c4State (.discard pos now) = c4State) ∧
     (∀ t c v now, step gZero "pp" "ss" c4State (.hint t c v now) = c4State) ∧
     step gZero "pp" "ss" c4State .endTurn = c4State ∧
     (∀ now, heartbeat gZero c4State "pp" "ss" now = c4State) ∧
     (∀ now, advance gZero c4State "pp" "ss" now = .error .actionNotValid) ∧
     (2 ≤ c4State.playersPresent →
        manage_session_post gZero c4State "pp" "ss" = init_session gZero c4State "pp" "ss")) :=
  ⟨⟨rfl, rfl, rfl⟩, C4_finished_session_frozen gZero "pp" "ss" c4State 7 rfl rfl rfl⟩

/-- C6: on a running session awaiting an action with an occupied position of
the active player's hand, discarding at the token cap is rejected as an input
error with no state change; otherwise the discard removes the card, credits
exactly one token, appends a DISCARD log row for the current turn, and
schedules the end-of-turn deadline. -/
theorem C6_discard_spec (g : String → Nat → Nat → Nat) (pepper secret : String)
    (s : GameState) (p pos : Nat) (ct : CardType) (now : Nat)
    (hact : s.activePlayer = some p)
    (hpos : pos < s.cardsInHand)
    (hcard : (s.hands.getD p []).getD pos none = some ct)
    (heta : s.endTurnAt = none) :
    (s.tokensRemaining = s.maxTokens →
      discard_card s pos now = .error .actionNotValid ∧
      step g pepper secret s (.discard pos now) = s) ∧
    (s.tokensRemaining ≠ s.maxTokens →
      ∃ s' e, discard_card s pos now = .ok s' ∧
        step g pepper secret s (.discard pos now) = s' ∧
        s'.hands = s.hands.set p ((s.hands.getD p []).set pos none) ∧
        s'.tokensRemaining = s.tokensRemaining + 1 ∧
        s'.log = s.log ++ [e] ∧ e.actionType = .DISCARD ∧ e.turn = s.turn ∧
        e.handPos = some pos ∧
        s'.endTurnAt = some (now + s.postActionTimeLimit)) := by
  constructor
  · intro hcap
    have hrej : discard_card s pos now = .error .actionNotValid := by
      unfold discard_card
      rw [if_pos hcap]
    refine ⟨hrej, ?_⟩
    simp [step, hrej]
  · intro hcap
    have huse : use_card s pos =
        .ok (ct, { s with hands := s.hands.set p ((s.hands.getD p []).set pos none) }) := by
      unfold use_card
      rw [if_pos hpos, hact]
      simp only []
      rw [hcard]
    have hdis : discard_card s pos now =
        .ok (finish_action
              { s with
                  hands := s.hands.set p ((s.hands.getD p []).set pos none)
                  tokensRemaining := s.tokensRemaining + 1 }
              { turn := s.turn, actionType := .DISCARD, player := p,
                colour := some ct.colour, numValue := some ct.numValue,
                handPos := some pos, wasError := false,
                hintPositions := none, hintTarget := none } now) := by
      unfold discard_card
      rw [if_neg hcap, huse]
      simp only []
      rw [hact]
    refine ⟨_, _, hdis, ?_, rfl, rfl, rfl, rfl, rfl, rfl, rfl⟩
    simp [step, hact, heta, hdis]

/-- Witness for C6: `demoState` (whose token count sits at the cap) at
position 1. -/
theorem C6_discard_spec_witness :
    (demoState.activePlayer = some 0 ∧ 1 < demoState.cardsInHand ∧
     (demoState.hands.getD 0 []).getD 1 none = some ⟨3, 2⟩ ∧
     demoState.endTurnAt = none) ∧
    ((demoState.tokensRemaining = demoState.maxTokens →
        discard_card demoState 1 9 = .error .actionNotValid ∧
        step gZero "pp" "ss" demoState (.discard 1 9) = demoState) ∧
     (demoState.tokensRemaining ≠ demoState.maxTokens →
        ∃ s' e, discard_card demoState 1 9 = .ok s' ∧
          step gZero "pp" "ss" demoState (.discard 1 9) = s' ∧
          s'.hands = demoState.hands.set 0 ((demoState.hands.getD 0 []).set 1 none) ∧
          s'.tokensRemaining = demoState.tokensRemaining + 1 ∧
          s'.log = demoState.log ++ [e] ∧ e.actionType = .DISCARD ∧
          e.turn = demoState.turn ∧ e.handPos = some 1 ∧
          s'.endTurnAt = some (9 + demoState.postActionTimeLimit))) :=
  ⟨⟨rfl, by decide, rfl, rfl⟩,
   C6_discard_spec gZero "pp" "ss" demoState 0 1 ⟨3, 2⟩ 9 rfl (by decide) rfl rfl⟩

/-- C10: the join guard uses `players_present > MAX_PLAYERS`, so on a
not-started session whose roster already equals the capacity (`MAX_PLAYERS =
5`), a join request is accepted and seats a sixth player at position 5 — the
claim (join succeeds only when the roster is strictly below capacity) requires
this request to be rejected. -/
theorem C10_join_accepted_at_capacity :
    c10State.activePlayer = none ∧ c10State.playersPresent = maxPlayers ∧
    (session_join c10State "frank").map (fun r => (r.1.playersPresent, r.2))
      = .ok (6, 5) := by
  exact ⟨rfl, rfl, rfl⟩

/-- Inversion of a successful `use_card`: the active player held the card at a
valid position, and only that hand slot was cleared. -/
theorem use_card_ok_inv (s : GameState) (pos : Nat) (ct : CardType) (s1 : GameState)
    (h : use_card s pos = .ok (ct, s1)) :
    ∃ p, s.activePlayer = some p ∧ pos < s.cardsInHand ∧
      (s.hands.getD p []).getD pos none = some ct ∧
      s1 = { s with hands := s.hands.set p ((s.hands.getD p []).set pos none) } := by
  unfold use_card at h
  split at h
  · next hpos =>
    split at h
    · exact absurd h (by simp)
    · next p hp =>
      split at h
      · exact absurd h (by simp)
      · next c hc =>
        simp only [Except.ok.injEq, Prod.mk.injEq] at h
        obtain ⟨h1, h2⟩ := h
        exact ⟨p, hp, hpos, h1 ▸ hc, h2.symm⟩
  · exact absurd h (by simp)

/-- Field-level description of `finish_action`. -/
theorem finish_action_fields (s : GameState) (e : LogEntry) (now : Nat) :
    (finish_action s e now).log = s.log ++ [e] ∧
    (finish_action s e now).needDraw = true ∧
    (finish_action s e now).endTurnAt = some (now + s.postActionTimeLimit) ∧
    (finish_action s e now).hands = s.hands ∧
    (finish_action s e now).reserves = s.reserves ∧
    (finish_action s e now).tokensRemaining = s.tokensRemaining ∧
    (finish_action s e now).errorsRemaining = s.errorsRemaining ∧
    (finish_action s e now).maxTokens = s.maxTokens ∧
    (finish_action s e now).activePlayer = s.activePlayer ∧
    (finish_action s e now).playersPresent = s.playersPresent ∧
    (finish_action s e now).colourCount = s.colourCount ∧
    (finish_action s e now).cardsInHand = s.cardsInHand ∧
    (finish_action s e now).finalScore = s.finalScore ∧
    (finish_action s e now).turn = s.turn := by
  exact ⟨rfl, rfl, rfl, rfl, rfl, rfl, rfl, rfl, rfl, rfl, rfl, rfl, rfl, rfl⟩

/-- Inversion of a successful `play_card`: the removed card, the appended PLAY
log row, and the possible counter changes. -/
theorem play_card_ok_inv (s : GameState) (pos now : Nat) (s' : GameState)
    (h : play_card s pos now = .ok s') :
    ∃ p ct e, s.activePlayer = some p ∧ pos < s.cardsInHand ∧
      (s.hands.getD p []).getD pos none = some ct ∧
      s'.hands = s.hands.set p ((s.hands.getD p []).set pos none) ∧
      s'.reserves = s.reserves ∧ s'.log = s.log ++ [e] ∧ e.actionType = .PLAY ∧
      s'.maxTokens = s.maxTokens ∧ s'.endTurnAt = some (now + s.postActionTimeLimit) ∧
      s'.activePlayer = s.activePlayer ∧ s'.playersPresent = s.playersPresent ∧
      s'.colourCount = s.colourCount ∧ s'.cardsInHand = s.cardsInHand ∧
      s'.finalScore = s.finalScore ∧ s'.turn = s.turn ∧
      (s'.errorsRemaining = s.errorsRemaining ∨
        s'.errorsRemaining = s.errorsRemaining - 1) ∧
      (s'.tokensRemaining = s.tokensRemaining ∨
        (s'.tokensRemaining = s.tokensRemaining + 1 ∧
         s.tokensRemaining < s.maxTokens)) := by
  unfold play_card at h
  split at h
  · exact absurd h (by simp)
  · next ct s1 heq =>
    obtain ⟨p, hp, hpos, hcard, hs1⟩ := use_card_ok_inv s pos ct s1 heq
    subst hs1
    split at h
    · exact absurd h (by simp)
    · next fw hfw =>
      simp only [] at h
      by_cases hpl : fw = (ct.numValue : Int) - 1
      · rw [if_pos hpl] at h
        by_cases h5 : ct.numValue = 5 ∧ s.tokensRemaining < s.maxTokens
        · rw [if_pos h5] at h
          rw [hp] at h
          simp only [Except.ok.injEq] at h
          subst h
          exact ⟨p, ct, _, hp, hpos, hcard, rfl, rfl, rfl, rfl, rfl, rfl, hp.symm, rfl,
            rfl, rfl, rfl, rfl, Or.inl rfl, Or.inr ⟨rfl, h5.2⟩⟩
        · rw [if_neg h5] at h
          rw [hp] at h
          simp only [Except.ok.injEq] at h
          subst h
          exact ⟨p, ct, _, hp, hpos, hcard, rfl, rfl, rfl, rfl, rfl, rfl, hp.symm, rfl,
            rfl, rfl, rfl, rfl, Or.inl rfl, Or.inl rfl⟩
      · rw [if_neg hpl] at h
        rw [hp] at h
        simp only [Except.ok.injEq] at h
        subst h
        exact ⟨p, ct, _, hp, hpos, hcard, rfl, rfl, rfl, rfl, rfl, rfl, hp.symm, rfl,
          rfl, rfl, rfl, rfl, Or.inr rfl, Or.inl rfl⟩

/-- Inversion of a successful `discard_card`: the removed card, the appended
DISCARD log row, and the token credit below the cap. -/
theorem discard_card_ok_inv (s : GameState) (pos now : Nat) (s' : GameState)
    (h : discard_card s pos now = .ok s') :
    ∃ p ct e, s.activePlayer = some p ∧ pos < s.cardsInHand ∧
      (s.hands.getD p []).getD pos none = some ct ∧
      (s.hands.getD p []).getD pos none = some ct ∧
      s'.hands = s.hands.set p ((s.hands.getD p []).set pos none) ∧
      s'.reserves = s.reserves ∧ s'.log = s.log ++ [e] ∧ e.actionType = .DISCARD ∧
      s'.maxTokens = s.maxTokens ∧ s'.endTurnAt = some (now + s.postActionTimeLimit) ∧
      s'.activePlayer = s.activePlayer ∧ s'.playersPresent = s.playersPresent ∧
      s'.colourCount = s.colourCount ∧ s'.cardsInHand = s.cardsInHand ∧
      s'.finalScore = s.finalScore ∧ s'.turn = s.turn ∧
      s'.errorsRemaining = s.errorsRemaining ∧
      s'.tokensRemaining = s.tokensRemaining + 1 ∧
      s.tokensRemaining ≠ s.maxTokens := by
  unfold discard_card at h
  split at h
  · exact absurd h (by simp)
  · next hcap =>
    split at h
    · exact absurd h (by simp)
    · next ct s1 heq =>
      obtain ⟨p, hp, hpos, hcard, hs1⟩ := use_card_ok_inv s pos ct s1 heq
      subst hs1
      simp only [] at h
      rw [hp] at h
      simp only [Except.ok.injEq] at h
      subst h
      exact ⟨p, ct, _, hp, hpos, hcard, hcard, rfl, rfl, rfl, rfl, rfl, rfl, hp.symm,
        rfl, rfl, rfl, rfl, rfl, rfl, rfl, hcap⟩

/-- Inversion of a successful `give_hint`: hands and reserves untouched, a HINT
log row appended, one token spent. -/
theorem give_hint_ok_inv (s : GameState) (target : Nat) (colour numValue : Option Nat)
    (now : Nat) (s' : GameState)
    (h : give_hint s target colour numValue now = .ok s') :
    ∃ p e, s.activePlayer = some p ∧
      s'.hands = s.hands ∧ s'.reserves = s.reserves ∧
      s'.log = s.log ++ [e] ∧ e.actionType = .HINT ∧
      s'.maxTokens = s.maxTokens ∧ s'.endTurnAt = some (now + s.postActionTimeLimit) ∧
      s'.activePlayer = s.activePlayer ∧ s'.playersPresent = s.playersPresent ∧
      s'.colourCount = s.colourCount ∧ s'.cardsInHand = s.cardsInHand ∧
      s'.finalScore = s.finalScore ∧ s'.turn = s.turn ∧
      s'.errorsRemaining = s.errorsRemaining ∧
      s'.tokensRemaining = s.tokensRemaining - 1 ∧
      s.tokensRemaining ≠ 0 := by
  unfold give_hint at h
  split at h
  · exact absurd h (by simp)
  · next hone =>
    split at h
    · exact absurd h (by simp)
    · next hself =>
      split at h
      · exact absurd h (by simp)
      · next htok =>
        split at h
        · exact absurd h (by simp)
        · next htgt =>
          split at h
          · exact absurd h (by simp)
          · next p hp =>
            simp only [Except.ok.injEq] at h
            subst h
            exact ⟨p, _, hp, rfl, rfl, rfl, rfl, rfl, rfl, rfl, rfl, rfl, rfl,
              rfl, rfl, rfl, rfl, htok⟩

/-- Inversion of a successful `session_join`. -/
theorem session_join_ok_inv (s : GameState) (name : String) (s' : GameState) (k : Nat)
    (h : session_join s name = .ok (s', k)) :
    s.activePlayer = none ∧ s.playersPresent ≤ maxPlayers ∧ k = s.playersPresent ∧
    s' = { s with
            playersPresent := s.playersPresent + 1
            playerNames := s.playerNames ++ [name.take maxNameLength] } := by
  unfold session_join at h
  split at h
  · exact absurd h (by simp)
  · next hg =>
    simp only [Bool.or_eq_true, not_or, Bool.not_eq_true, Option.not_isSome,
      Option.isNone_iff_eq_none, decide_eq_false_iff_not, Nat.not_lt] at hg
    simp only [Except.ok.injEq, Prod.mk.injEq] at h
    exact ⟨hg.1, hg.2, h.2.symm, h.1.symm⟩

/-- Inversion of a successful `draw_card`: the first free slot was filled with
the drawn card and the reserves updated. -/
theorem draw_card_ok_inv (g : String → Nat → Nat → Nat) (s : GameState) (p : Nat)
    (pepper secret : String) (s1 : GameState) (n : Nat) (c : CardType)
    (h : draw_card g s p pepper secret = .ok (s1, n, c)) :
    ∃ pos d' r', firstFreeSlot (queryHand s p) = some pos ∧
      1 ≤ deckTotal s.reserves ∧
      Deck.draw1 g s.reserves ⟨current_seed s pepper secret, 0⟩ = some (c, d', r') ∧
      n = deckTotal d' ∧
      s1 = { s with
              hands := s.hands.set p ((s.hands.getD p []).set pos (some c))
              reserves := d' } := by
  unfold draw_card at h
  split at h
  · exact absurd h (by simp)
  · next pos hf =>
    split at h
    · exact absurd h (by simp)
    · next hge =>
      split at h
      · exact absurd h (by simp)
      · next c2 d' r' hdr =>
        simp only [Except.ok.injEq, Prod.mk.injEq] at h
        obtain ⟨h1, h2, h3⟩ := h
        subst h3
        exact ⟨pos, d', r', hf, by omega, hdr, h2.symm, h1.symm⟩

/-- Inversion of a successful `init_session`: either the no-op path (already
running) or a full reset-and-deal. -/
theorem init_session_ok_inv (g : String → Nat → Nat → Nat) (s : GameState)
    (pepper secret : String) (s' : GameState)
    (h : init_session g s pepper secret = .ok s') :
    (s.activePlayer.isSome = true ∧ s' = s) ∨
    (s.activePlayer = none ∧ 2 ≤ s.playersPresent ∧
      ∃ hands deckRest r, initDeal g s pepper secret = some (hands, deckRest, r) ∧
        s' = { resetForInit s with
                activePlayer := some 0, hands := hands, reserves := deckRest }) := by
  unfold init_session at h
  split at h
  · next hrun =>
    simp only [Except.ok.injEq] at h
    exact Or.inl ⟨hrun, h.symm⟩
  · next hrun =>
    split at h
    · exact absurd h (by simp)
    · next hcnt =>
      split at h
      · exact absurd h (by simp)
      · next hands deckRest r hdeal =>
        simp only [Except.ok.injEq] at h
        exact Or.inr ⟨Option.not_isSome_iff_eq_none.mp hrun, by omega,
          hands, deckRest, r, hdeal, h.symm⟩

/-- Inversion of a successful `end_turn`: the bail-out, the three finalization
paths, or a turn advance with an optional draw. -/
theorem end_turn_ok_inv (g : String → Nat → Nat → Nat) (s : GameState)
    (pepper secret : String) (s' : GameState)
    (h : end_turn g s pepper secret = .ok s') :
    (s.endTurnAt = none ∧ s' = s) ∨
    (s.endTurnAt.isSome = true ∧ s.errorsRemaining = 0 ∧ s' = stop_game s 0) ∨
    (s.endTurnAt.isSome = true ∧ s.errorsRemaining ≠ 0 ∧
      s' = stop_game s s.fireworks.sum) ∨
    (∃ p s2, s.endTurnAt.isSome = true ∧ s.errorsRemaining ≠ 0 ∧
      s.activePlayer = some p ∧
      ((s2 = s) ∨
        (s.needDraw = true ∧ ∃ s1 n c, draw_card g s p pepper secret = .ok (s1, n, c) ∧
          ((n = 0 ∧ s2 = { s1 with stopGameAfter := some p }) ∨ (n ≠ 0 ∧ s2 = s1)))) ∧
      s2.playersPresent ≠ 0 ∧
      s' = { s2 with
              needDraw := false, endTurnAt := none,
              activePlayer := some ((p + 1) % s2.playersPresent),
              turn := s2.turn + 1 }) := by
  unfold end_turn at h
  split at h
  · next hdl =>
    simp only [Except.ok.injEq] at h
    exact Or.inl ⟨hdl, h.symm⟩
  · next t hdl =>
    have hdls : s.endTurnAt.isSome = true := by rw [hdl]; rfl
    split at h
    · next herr =>
      simp only [Except.ok.injEq] at h
      exact Or.inr (Or.inl ⟨hdls, herr, h.symm⟩)
    · next herr =>
      split at h
      · next hcond =>
        simp only [Except.ok.injEq] at h
        exact Or.inr (Or.inr (Or.inl ⟨hdls, herr, h.symm⟩))
      · next hcond =>
        split at h
        · exact absurd h (by simp)
        · next p hp =>
          simp only [] at h
          by_cases hneed : s.needDraw = true
          · rw [if_pos hneed] at h
            rcases hdr : draw_card g s p pepper secret with e | ⟨s1, n, c⟩
            · rcases e
              · rw [hdr] at h
                simp only [] at h
                split at h
                · exact absurd h (by simp)
                · next hnz =>
                  simp only [Except.ok.injEq] at h
                  exact Or.inr (Or.inr (Or.inr ⟨p, s, hdls, herr, hp, Or.inl rfl,
                    hnz, h.symm⟩))
              · rw [hdr] at h
                simp only [] at h
                exact absurd h (by simp)
            · rw [hdr] at h
              simp only [] at h
              by_cases hz : n = 0
              · rw [if_pos hz] at h
                split at h
                · exact absurd h (by simp)
                · next hnz =>
                  simp only [Except.ok.injEq] at h
                  exact Or.inr (Or.inr (Or.inr ⟨p, { s1 with stopGameAfter := some p },
                    hdls, herr, hp,
                    Or.inr ⟨hneed, s1, n, c, hdr, Or.inl ⟨hz, rfl⟩⟩, hnz, h.symm⟩))
              · rw [if_neg hz] at h
                split at h
                · exact absurd h (by simp)
                · next hnz =>
                  simp only [Except.ok.injEq] at h
                  exact Or.inr (Or.inr (Or.inr ⟨p, s1, hdls, herr, hp,
                    Or.inr ⟨hneed, s1, n, c, hdr, Or.inr ⟨hz, rfl⟩⟩, hnz, h.symm⟩))
          · rw [if_neg hneed] at h
            simp only [] at h
            split at h
            · exact absurd h (by simp)
            · next hnz =>
              simp only [Except.ok.injEq] at h
              exact Or.inr (Or.inr (Or.inr ⟨p, s, hdls, herr, hp, Or.inl rfl,
                hnz, h.symm⟩))

/-- Every request preserves `Inv7`. -/
theorem inv7_step (g : String → Nat → Nat → Nat) (pepper secret : String)
    (s : GameState) (a : GAction) (h : Inv7 s) : Inv7 (step g pepper secret s a) := by
  obtain ⟨h1, h2, h3, h4, h5, h6⟩ := h
  cases a with
  | join name =>
    simp only [step]
    rcases hj : session_join s name with e | ⟨s', k⟩
    · exact ⟨h1, h2, h3, h4, h5, h6⟩
    · obtain ⟨ha, hb, hk, hs'⟩ := session_join_ok_inv s name s' k hj
      subst hs'
      exact ⟨h1, h2, h3, h4, h5, fun hAct hEta => h6 hAct hEta⟩
  | start =>
    simp only [step]
    rcases hm : manage_session_post g s pepper secret with e | s'
    · exact ⟨h1, h2, h3, h4, h5, h6⟩
    · unfold manage_session_post at hm
      split at hm
      · simp only [Except.ok.injEq] at hm
        subst hm
        exact ⟨h1, h2, h3, h4, h5, h6⟩
      · split at hm
        · exact absurd hm (by simp)
        · rcases init_session_ok_inv g s pepper secret s' hm with
            ⟨_, rfl⟩ | ⟨_, _, hands, dr, r, _, rfl⟩
          · exact ⟨h1, h2, h3, h4, h5, h6⟩
          · refine ⟨h5, le_refl _, by norm_num [resetForInit, errorsAllowed],
              by norm_num [resetForInit, errorsAllowed], h5, ?_⟩
            intro _ _
            norm_num [resetForInit, errorsAllowed]
  | play pos now =>
    simp only [step]
    by_cases hg : (s.activePlayer.isSome && s.endTurnAt.isNone) = true
    · rw [if_pos hg]
      obtain ⟨hga, hge⟩ := Bool.and_eq_true_iff.mp hg
      have hEta : s.endTurnAt = none := Option.isNone_iff_eq_none.mp hge
      have herr1 : 1 ≤ s.errorsRemaining := h6 hga hEta
      rcases hp : play_card s pos now with e | s'
      · exact ⟨h1, h2, h3, h4, h5, h6⟩
      · show Inv7 s'
        obtain ⟨p, ct, e, _, _, _, _, _, _, _, hmax, hdl', _, _, _, _, _, _, herr', htok'⟩ :=
          play_card_ok_inv s pos now s' hp
        refine ⟨?_, ?_, ?_, ?_, ?_, ?_⟩
        · rcases htok' with he | ⟨he, _⟩ <;> omega
        · rcases htok' with he | ⟨he, hlt⟩ <;> omega
        · rcases herr' with he | he <;> omega
        · rcases herr' with he | he <;> omega
        · omega
        · intro _ hEta'
          rw [hdl'] at hEta'
          exact absurd hEta' (by simp)
    · rw [if_neg hg]
      exact ⟨h1, h2, h3, h4, h5, h6⟩
  | discard pos now =>
    simp only [step]
    by_cases hg : (s.activePlayer.isSome && s.endTurnAt.isNone) = true
    · rw [if_pos hg]
      rcases hp : discard_card s pos now with e | s'
      · exact ⟨h1, h2, h3, h4, h5, h6⟩
      · show Inv7 s'
        obtain ⟨p, ct, e, _, _, _, _, _, _, _, _, hmax, hdl', _, _, _, _, _, herr', htok', hne⟩ :=
          discard_card_ok_inv s pos now s' hp
        refine ⟨by omega, by omega, by omega, by omega, by omega, ?_⟩
        intro _ hEta'
        rw [hdl'] at hEta'
        exact absurd hEta' (by simp)
    · rw [if_neg hg]
      exact ⟨h1, h2, h3, h4, h5, h6⟩
  | hint t c v now =>
    simp only [step]
    by_cases hg : (s.activePlayer.isSome && s.endTurnAt.isNone) = true
    · rw [if_pos hg]
      rcases hp : give_hint s t c v now with e | s'
      · exact ⟨h1, h2, h3, h4, h5, h6⟩
      · show Inv7 s'
        obtain ⟨p, e, _, _, _, _, _, hmax, hdl', _, _, _, _, _, _, herr', htok', hne⟩ :=
          give_hint_ok_inv s t c v now s' hp
        refine ⟨by omega, by omega, by omega, by omega, by omega, ?_⟩
        intro _ hEta'
        rw [hdl'] at hEta'
        exact absurd hEta' (by simp)
    · rw [if_neg hg]
      exact ⟨h1, h2, h3, h4, h5, h6⟩
  | endTurn =>
    simp only [step]
    rcases he : end_turn g s pepper secret with e | s'
    · exact ⟨h1, h2, h3, h4, h5, h6⟩
    · show Inv7 s'
      rcases end_turn_ok_inv g s pepper secret s' he with
        ⟨_, rfl⟩ | ⟨_, _, rfl⟩ | ⟨_, _, rfl⟩ |
        ⟨p, s2, _, herr, hp, hs2, hnz, rfl⟩
      · exact ⟨h1, h2, h3, h4, h5, h6⟩
      · exact ⟨h1, h2, h3, h4, h5, by intro hAct _; exact absurd hAct (by simp [stop_game])⟩
      · exact ⟨h1, h2, h3, h4, h5, by intro hAct _; exact absurd hAct (by simp [stop_game])⟩
      · have hcnt : s2.tokensRemaining = s.tokensRemaining ∧
            s2.errorsRemaining = s.errorsRemaining ∧ s2.maxTokens = s.maxTokens := by
          rcases hs2 with rfl | ⟨_, s1, n, c, hdr, hcase⟩
          · exact ⟨rfl, rfl, rfl⟩
          · obtain ⟨_, hb, _, _, _, _, _, hh, _⟩ :=
              draw_card_ok_fields g s p pepper secret s1 n c hdr
            have hmax1 : s1.maxTokens = s.maxTokens := by
              obtain ⟨pos, d', r', _, _, _, _, hs1⟩ :=
                draw_card_ok_inv g s p pepper secret s1 n c hdr
              subst hs1
              rfl
            rcases hcase with ⟨_, rfl⟩ | ⟨_, rfl⟩
            · exact ⟨hh, hb, hmax1⟩
            · exact ⟨hh, hb, hmax1⟩
        obtain ⟨hc1, hc2, hc3⟩ := hcnt
        refine ⟨?_, ?_, ?_, ?_, ?_, ?_⟩
        · show 0 ≤ s2.tokensRemaining
          omega
        · show s2.tokensRemaining ≤ s2.maxTokens
          omega
        · show 0 ≤ s2.errorsRemaining
          omega
        · show s2.errorsRemaining ≤ errorsAllowed
          omega
        · show 0 ≤ s2.maxTokens
          omega
        · intro _ _
          show 1 ≤ s2.errorsRemaining
          omega

/-- `Inv7` holds along any run. -/
theorem inv7_run (g : String → Nat → Nat → Nat) (pepper secret : String)
    (l : List GAction) (s : GameState) (h : Inv7 s) :
    Inv7 (runActions g pepper secret s l) := by
  induction l generalizing s with
  | nil => exact h
  | cons a rest ih => exact ih (step g pepper secret s a) (inv7_step g pepper secret s a h)

/-- A fresh session satisfies `Inv7`. -/
theorem inv7_initial : Inv7 initialSession := by
  refine ⟨by decide, by decide, by decide, by decide, by decide, ?_⟩
  intro hAct _
  exact absurd hAct (by decide)

/-- C7: in every state reachable from a fresh session by any sequence of
requests (join, start, play, discard, hint, end-turn),
`0 <= tokens_remaining <= max_tokens` and
`0 <= errors_remaining <= ERRORS_ALLOWED` hold; each operation preserves the
bounds (the proof is by preservation along the run). -/
theorem C7_counter_bounds (g : String → Nat → Nat → Nat) (pepper secret : String)
    (l : List GAction) :
    0 ≤ (runActions g pepper secret initialSession l).tokensRemaining ∧
    (runActions g pepper secret initialSession l).tokensRemaining ≤
      (runActions g pepper secret initialSession l).maxTokens ∧
    0 ≤ (runActions g pepper secret initialSession l).errorsRemaining ∧
    (runActions g pepper secret initialSession l).errorsRemaining ≤ errorsAllowed := by
  obtain ⟨h1, h2, h3, h4, _, _⟩ := inv7_run g pepper secret l initialSession inv7_initial
  exact ⟨h1, h2, h3, h4⟩

/-- Writing one slot changes the hand count by the difference of occupancy. -/
theorem handCount_set (h : List (Option CardType)) (i : Nat) (c : Option CardType)
    (hi : i < h.length) :
    handCount (h.set i c) + (if (h.getD i none).isSome then 1 else 0) =
      handCount h + (if c.isSome then 1 else 0) := by
  induction h generalizing i with
  | nil => exact absurd hi (by simp)
  | cons x t ih =>
    cases i with
    | zero =>
      simp only [List.set, handCount, List.countP_cons, List.getD_cons_zero]
      omega
    | succ j =>
      have hj : j < t.length := by simpa using hi
      have := ih j hj
      simp only [List.set, handCount, List.countP_cons, List.getD_cons_succ] at *
      omega

/-- Replacing one player's hand changes the total count accordingly. -/
theorem handsCount_set (hs : List (List (Option CardType))) (p : Nat)
    (h' : List (Option CardType)) (hp : p < hs.length) :
    handsCount (hs.set p h') + handCount (hs.getD p []) =
      handsCount hs + handCount h' := by
  induction hs generalizing p with
  | nil => exact absurd hp (by simp)
  | cons x t ih =>
    cases p with
    | zero =>
      simp only [List.set, handsCount, List.map_cons, List.sum_cons, List.getD_cons_zero]
      omega
    | succ j =>
      have hj : j < t.length := by simpa using hp
      have := ih j hj
      simp only [List.set, handsCount, List.map_cons, List.sum_cons, List.getD_cons_succ] at *
      omega

/-- In-range `getD` produces a member of the list. -/
theorem getD_mem (hs : List (List (Option CardType))) (p : Nat) (hp : p < hs.length) :
    hs.getD p [] ∈ hs := by
  rw [List.getD_eq_getElem?_getD, List.getElem?_eq_getElem hp]
  exact List.getElem_mem hp

theorem deckTotal_cons (x : CardType × Nat) (t : Deck) :
    deckTotal (x :: t) = x.2 + deckTotal t := by
  simp [deckTotal]

/-- The cumulative-range selection succeeds for any index below the total. -/
theorem pick_isSome (d : Deck) (ix : Nat) (h : ix < deckTotal d) :
    ∃ ct, pickByCumulative d ix = some ct := by
  induction d generalizing ix with
  | nil => simp [deckTotal] at h
  | cons x t ih =>
    rw [deckTotal_cons] at h
    by_cases hlt : ix < x.2
    · exact ⟨x.1, by simp [pickByCumulative, hlt]⟩
    · obtain ⟨ct, hct⟩ := ih (ix - x.2) (by omega)
      exact ⟨ct, by simpa [pickByCumulative, hlt] using hct⟩

/-- The selected card type is one of the deck's keys. -/
theorem pick_mem_keys (d : Deck) (ix : Nat) (ct : CardType)
    (h : pickByCumulative d ix = some ct) : ct ∈ d.map Prod.fst := by
  induction d generalizing ix with
  | nil => simp [pickByCumulative] at h
  | cons x t ih =>
    by_cases hlt : ix < x.2
    · simp only [pickByCumulative, if_pos hlt, Option.some.injEq] at h
      simp [h.symm]
    · simp only [pickByCumulative, if_neg hlt] at h
      simp [ih _ h]

/-- Decrementing a count preserves the key sequence. -/
theorem decFirst_keys (d : Deck) (ct : CardType) :
    (decFirst d ct).map Prod.fst = d.map Prod.fst := by
  induction d with
  | nil => rfl
  | cons x t ih =>
    rcases x with ⟨a, c⟩
    by_cases hac : a = ct
    · simp [decFirst, hac]
    · simp [decFirst, hac, ih]

/-- With distinct keys, decrementing the selected type removes exactly one
card (the selected entry has a positive count). -/
theorem deckTotal_decFirst (d : Deck) (ix : Nat) (ct : CardType)
    (hn : (d.map Prod.fst).Nodup) (hp : pickByCumulative d ix = some ct) :
    deckTotal (decFirst d ct) + 1 = deckTotal d := by
  induction d generalizing ix with
  | nil => simp [pickByCumulative] at hp
  | cons x t ih =>
    rcases x with ⟨a, c⟩
    rw [List.map_cons, List.nodup_cons] at hn
    by_cases hlt : ix < c
    · simp only [pickByCumulative, if_pos hlt, Option.some.injEq] at hp
      rw [decFirst, if_pos hp]
      rw [deckTotal_cons, deckTotal_cons]
      simp only []
      omega
    · simp only [pickByCumulative, if_neg hlt] at hp
      have hmem := pick_mem_keys t _ ct hp
      have hane : ¬ a = ct := fun hc => hn.1 (hc ▸ hmem)
      rw [decFirst, if_neg hane]
      rw [deckTotal_cons, deckTotal_cons]
      have := ih _ hn.2 hp
      omega

/-- One draw removes exactly one card and preserves the key sequence. -/
theorem draw1_spec (g : String → Nat → Nat → Nat) (d : Deck) (r : Rng)
    (hn : (d.map Prod.fst).Nodup) (ct : CardType) (d' : Deck) (r' : Rng)
    (h : Deck.draw1 g d r = some (ct, d', r')) :
    deckTotal d' + 1 = deckTotal d ∧ d'.map Prod.fst = d.map Prod.fst := by
  unfold Deck.draw1 at h
  split at h
  · exact absurd h (by simp)
  · next hz =>
    simp only [] at h
    split at h
    · exact absurd h (by simp)
    · next c2 hpick =>
      simp only [Option.some.injEq, Prod.mk.injEq] at h
      obtain ⟨h1, h2, _⟩ := h
      subst h1
      rw [← h2]
      exact ⟨deckTotal_decFirst d _ _ hn hpick, decFirst_keys d _⟩

/-- `n` draws remove exactly `n` cards. -/
theorem drawSeqGo_spec (g : String → Nat → Nat → Nat) (n : Nat) :
    ∀ (d : Deck) (r : Rng) (cs : List CardType) (d' : Deck) (r' : Rng),
      (d.map Prod.fst).Nodup →
      drawSeqGo g n d r = some (cs, d', r') →
      deckTotal d' + n = deckTotal d ∧ d'.map Prod.fst = d.map Prod.fst ∧
        cs.length = n := by
  induction n with
  | zero =>
    intro d r cs d' r' hn h
    simp only [drawSeqGo, Option.some.injEq, Prod.mk.injEq] at h
    obtain ⟨h1, h2, _⟩ := h
    rw [← h1, ← h2]
    exact ⟨by omega, rfl, rfl⟩
  | succ m ih =>
    intro d r cs d' r' hn h
    simp only [drawSeqGo] at h
    split at h
    · exact absurd h (by simp)
    · next ct d1 r1 hdr =>
      split at h
      · exact absurd h (by simp)
      · next cs2 d2 r2 hgo =>
        simp only [Option.some.injEq, Prod.mk.injEq] at h
        obtain ⟨h1, h2, h3⟩ := h
        obtain ⟨hd1, hk1⟩ := draw1_spec g d r hn ct d1 r1 hdr
        obtain ⟨hd2, hk2, hlen⟩ := ih d1 r1 cs2 d2 r2 (hk1 ▸ hn) hgo
        refine ⟨?_, ?_, ?_⟩
        · rw [← h2]; omega
        · rw [← h2, hk2, hk1]
        · rw [← h1]; simp [hlen]

theorem drawSeq_spec (g : String → Nat → Nat → Nat) (n : Nat) (d : Deck) (r : Rng)
    (cs : List CardType) (d' : Deck) (r' : Rng)
    (hn : (d.map Prod.fst).Nodup)
    (h : drawSeq g n d r = some (cs, d', r')) :
    deckTotal d' + n = deckTotal d ∧ d'.map Prod.fst = d.map Prod.fst ∧
      cs.length = n := by
  unfold drawSeq at h
  split at h
  · exact absurd h (by simp)
  · exact drawSeqGo_spec g n d r cs d' r' hn h

theorem handCount_map_some (cs : List CardType) : handCount (cs.map some) = cs.length := by
  induction cs with
  | nil => rfl
  | cons x t ih =>
    simp only [List.map_cons, handCount, List.countP_cons, List.length_cons,
      Option.isSome_some, if_pos] at ih ⊢
    omega

/-- Dealing hands moves exactly the dealt cards out of the deck, and every
dealt hand is full. -/
theorem dealHands_spec (g : String → Nat → Nat → Nat) (k : Nat) :
    ∀ (hsz : Nat) (d : Deck) (r : Rng) (hands : List (List (Option CardType)))
      (d' : Deck) (r' : Rng),
      (d.map Prod.fst).Nodup →
      dealHands g k hsz d r = some (hands, d', r') →
      deckTotal d' + handsCount hands = deckTotal d ∧
        d'.map Prod.fst = d.map Prod.fst ∧
        hands.length = k ∧ (∀ h ∈ hands, h.length = hsz) := by
  induction k with
  | zero =>
    intro hsz d r hands d' r' hn h
    simp only [dealHands, Option.some.injEq, Prod.mk.injEq] at h
    obtain ⟨h1, h2, _⟩ := h
    rw [← h1, ← h2]
    exact ⟨by simp [handsCount], rfl, rfl, by simp⟩
  | succ m ih =>
    intro hsz d r hands d' r' hn h
    simp only [dealHands] at h
    split at h
    · exact absurd h (by simp)
    · next cs d1 r1 hds =>
      split at h
      · exact absurd h (by simp)
      · next rest d2 r2 hdh =>
        simp only [Option.some.injEq, Prod.mk.injEq] at h
        obtain ⟨h1, h2, _⟩ := h
        obtain ⟨hd1, hk1, hlen1⟩ := drawSeq_spec g hsz d r cs d1 r1 hn hds
        obtain ⟨hd2, hk2, hlen2, hall⟩ := ih hsz d1 r1 rest d2 r2 (hk1 ▸ hn) hdh
        refine ⟨?_, ?_, ?_, ?_⟩
        · rw [← h1, ← h2]
          simp only [handsCount, List.map_cons, List.sum_cons]
          have hc : handCount (cs.map some) = hsz := by rw [handCount_map_some, hlen1]
          simp only [handsCount] at hd2
          omega
        · rw [← h2, hk2, hk1]
        · rw [← h1]; simp [hlen2]
        · rw [← h1]
          intro hh hmem
          rcases List.mem_cons.mp hmem with rfl | hmem2
          · rw [List.length_map, hlen1]
          · exact hall hh hmem2

/-- The full five-colour deck holds 50 cards. -/
theorem fullDeck5_total : deckTotal (fullDeck 5) = 50 := by decide

/-- The full five-colour deck lists each card type once. -/
theorem fullDeck5_nodup : ((fullDeck 5).map Prod.fst).Nodup := by decide

/-- The first free slot is in range and empty. -/
theorem firstFreeSlot_spec (l : List (Option CardType)) (pos : Nat)
    (h : firstFreeSlot l = some pos) :
    pos < l.length ∧ l.getD pos none = none := by
  induction l generalizing pos with
  | nil => simp [firstFreeSlot] at h
  | cons x t ih =>
    cases x with
    | none =>
      simp only [firstFreeSlot, Option.some.injEq] at h
      rw [← h]
      exact ⟨by simp, rfl⟩
    | some c =>
      simp only [firstFreeSlot, Option.map_eq_some'] at h
      obtain ⟨q, hq, hpos⟩ := h
      obtain ⟨hlt, hget⟩ := ih q hq
      rw [← hpos]
      exact ⟨by simpa using hlt, by simpa using hget⟩

theorem queryHand_getD (s : GameState) (p i : Nat) (hi : i < s.cardsInHand) :
    (queryHand s p).getD i none = (s.hands.getD p []).getD i none := by
  unfold queryHand
  rw [List.getD_eq_getElem?_getD, List.getElem?_map]
  rw [List.getElem?_range hi]
  rfl

theorem queryHand_length (s : GameState) (p : Nat) :
    (queryHand s p).length = s.cardsInHand := by
  simp [queryHand]

/-- Every request preserves `Inv5`. -/
theorem inv5_step (g : String → Nat → Nat → Nat) (pepper secret : String)
    (s : GameState) (a : GAction) (h : Inv5 s) : Inv5 (step g pepper secret s a) := by
  obtain ⟨hcol, hnd, heta, hstr, hcons⟩ := h
  cases a with
  | join name =>
    simp only [step]
    rcases hj : session_join s name with e | ⟨s', k⟩
    · exact ⟨hcol, hnd, heta, hstr, hcons⟩
    · show Inv5 s'
      obtain ⟨ha, hb, hk, hs'⟩ := session_join_ok_inv s name s' k hj
      subst hs'
      refine ⟨hcol, hnd, heta, ?_, ?_⟩
      · intro p hp
        simp only [] at hp
        rw [ha] at hp
        exact absurd hp (by simp)
      · intro hc
        simp only [] at hc
        rcases hc with hc | hc
        · rw [ha] at hc
          exact absurd hc (by simp)
        · exact hcons (Or.inr hc)
  | start =>
    simp only [step]
    rcases hm : manage_session_post g s pepper secret with e | s'
    · exact ⟨hcol, hnd, heta, hstr, hcons⟩
    · show Inv5 s'
      unfold manage_session_post at hm
      split at hm
      · simp only [Except.ok.injEq] at hm
        subst hm
        exact ⟨hcol, hnd, heta, hstr, hcons⟩
      · split at hm
        · exact absurd hm (by simp)
        · rcases init_session_ok_inv g s pepper secret s' hm with
            ⟨_, rfl⟩ | ⟨hnone, hcnt, hands, dr, r, hdeal, rfl⟩
          · exact ⟨hcol, hnd, heta, hstr, hcons⟩
          · unfold initDeal at hdeal
            rw [hcol] at hdeal
            obtain ⟨hd, hk, hlen, hall⟩ :=
              dealHands_spec g s.playersPresent (handSizeFor s.playersPresent)
                (fullDeck 5) _ hands dr r fullDeck5_nodup hdeal
            refine ⟨hcol, ?_, ?_, ?_, ?_⟩
            · show (dr.map Prod.fst).Nodup
              rw [hk]
              exact fullDeck5_nodup
            · intro _
              rfl
            · intro p hp
              obtain rfl : 0 = p := by
                have : some 0 = some p := hp
                injection this
              refine ⟨show 0 < s.playersPresent by omega, hlen, ?_⟩
              intro hh hmem
              exact hall hh hmem
            · intro _
              show deckTotal dr + handsCount hands + logCardCount [] =
                s.colourCount * cardDistPerColour.sum
              have h50 : deckTotal dr + handsCount hands = 50 := by
                rw [← fullDeck5_total]
                exact hd
              have hsum : cardDistPerColour.sum = 10 := by decide
              rw [hcol, hsum]
              simp only [logCardCount, List.countP_nil]
              omega
  | play pos now =>
    simp only [step]
    by_cases hg : (s.activePlayer.isSome && s.endTurnAt.isNone) = true
    · rw [if_pos hg]
      rcases hpc : play_card s pos now with e | s'
      · exact ⟨hcol, hnd, heta, hstr, hcons⟩
      · show Inv5 s'
        obtain ⟨p, ct, e, hp, hpos, hcard, hhands', hres', hlog', hetype, hmax, hdl',
            hact', hpp', hcc', hcih', hfs', hturn', herr', htok'⟩ :=
          play_card_ok_inv s pos now s' hpc
        obtain ⟨hplt, hhlen, hmem⟩ := hstr p hp
        have hplth : p < s.hands.length := by omega
        have hhl : (s.hands.getD p []).length = s.cardsInHand :=
          hmem _ (getD_mem s.hands p hplth)
        have hposlen : pos < (s.hands.getD p []).length := by omega
        refine ⟨by rw [hcc', hcol], by rw [hres']; exact hnd, ?_, ?_, ?_⟩
        · intro _
          rw [hact', hp]
          rfl
        · intro q hq
          rw [hact', hp] at hq
          obtain rfl : p = q := by injection hq
          refine ⟨by rw [hpp']; exact hplt, ?_, ?_⟩
          · rw [hhands', hpp', List.length_set]
            exact hhlen
          · rw [hhands', hcih']
            intro hh hm
            rcases List.mem_or_eq_of_mem_set hm with hm2 | rfl
            · exact hmem hh hm2
            · rw [List.length_set]
              exact hhl
        · intro _
          have hpre : totalCards s = s.colourCount * cardDistPerColour.sum :=
            hcons (Or.inl (by rw [hp]; rfl))
          have hcount1 := handCount_set (s.hands.getD p []) pos none hposlen
          rw [hcard] at hcount1
          simp only [Option.isSome_some, Option.isSome_none, if_pos, if_neg,
            Bool.false_eq_true, ite_true, ite_false] at hcount1
          have hcount2 := handsCount_set s.hands p
            ((s.hands.getD p []).set pos none) hplth
          have hca : isCardAction e = true := by
            rw [isCardAction, hetype]
            rfl
          have hlogc : logCardCount (s.log ++ [e]) = logCardCount s.log + 1 := by
            rw [logCardCount, List.countP_append]
            simp [logCardCount, List.countP_cons, hca]
          unfold totalCards at hpre ⊢
          rw [hres', hhands', hlog', hcc', hlogc]
          rw [hcol] at hpre ⊢
          omega
    · rw [if_neg hg]
      exact ⟨hcol, hnd, heta, hstr, hcons⟩
  | discard pos now =>
    simp only [step]
    by_cases hg : (s.activePlayer.isSome && s.endTurnAt.isNone) = true
    · rw [if_pos hg]
      rcases hpc : discard_card s pos now with e | s'
      · exact ⟨hcol, hnd, heta, hstr, hcons⟩
      · show Inv5 s'
        obtain ⟨p, ct, e, hp, hpos, hcard, _, hhands', hres', hlog', hetype, hmax, hdl',
            hact', hpp', hcc', hcih', hfs', hturn', herr', htok'⟩ :=
          discard_card_ok_inv s pos now s' hpc
        obtain ⟨hplt, hhlen, hmem⟩ := hstr p hp
        have hplth : p < s.hands.length := by omega
        have hhl : (s.hands.getD p []).length = s.cardsInHand :=
          hmem _ (getD_mem s.hands p hplth)
        have hposlen : pos < (s.hands.getD p []).length := by omega
        refine ⟨by rw [hcc', hcol], by rw [hres']; exact hnd, ?_, ?_, ?_⟩
        · intro _
          rw [hact', hp]
          rfl
        · intro q hq
          rw [hact', hp] at hq
          obtain rfl : p = q := by injection hq
          refine ⟨by rw [hpp']; exact hplt, ?_, ?_⟩
          · rw [hhands', hpp', List.length_set]
            exact hhlen
          · rw [hhands', hcih']
            intro hh hm
            rcases List.mem_or_eq_of_mem_set hm with hm2 | rfl
            · exact hmem hh hm2
            · rw [List.length_set]
              exact hhl
        · intro _
          have hpre : totalCards s = s.colourCount * cardDistPerColour.sum :=
            hcons (Or.inl (by rw [hp]; rfl))
          have hcount1 := handCount_set (s.hands.getD p []) pos none hposlen
          rw [hcard] at hcount1
          simp only [Option.isSome_some, Option.isSome_none, if_pos, if_neg,
            Bool.false_eq_true, ite_true, ite_false] at hcount1
          have hcount2 := handsCount_set s.hands p
            ((s.hands.getD p []).set pos none) hplth
          have hca : isCardAction e = true := by
            rw [isCardAction, hetype]
            rfl
          have hlogc : logCardCount (s.log ++ [e]) = logCardCount s.log + 1 := by
            rw [logCardCount, List.countP_append]
            simp [logCardCount, List.countP_cons, hca]
          unfold totalCards at hpre ⊢
          rw [hres', hhands', hlog', hcc', hlogc]
          rw [hcol] at hpre ⊢
          omega
    · rw [if_neg hg]
      exact ⟨hcol, hnd, heta, hstr, hcons⟩
  | hint t c v now =>
    simp only [step]
    by_cases hg : (s.activePlayer.isSome && s.endTurnAt.isNone) = true
    · rw [if_pos hg]
      rcases hpc : give_hint s t c v now with e | s'
      · exact ⟨hcol, hnd, heta, hstr, hcons⟩
      · show Inv5 s'
        obtain ⟨p, e, hp, hhands', hres', hlog', hetype, hmax, hdl', hact', hpp',
            hcc', hcih', hfs', hturn', herr', htok', hne⟩ :=
          give_hint_ok_inv s t c v now s' hpc
        refine ⟨by rw [hcc', hcol], by rw [hres']; exact hnd, ?_, ?_, ?_⟩
        · intro _
          rw [hact', hp]
          rfl
        · intro q hq
          rw [hact'] at hq
          obtain ⟨hplt, hhlen, hmem⟩ := hstr q hq
          refine ⟨by rw [hpp']; exact hplt, ?_, ?_⟩
          · rw [hhands', hpp']
            exact hhlen
          · rw [hhands', hcih']
            exact hmem
        · intro _
          have hpre : totalCards s = s.colourCount * cardDistPerColour.sum :=
            hcons (Or.inl (by rw [hp]; rfl))
          have hca : isCardAction e = false := by
            rw [isCardAction, hetype]
            rfl
          have hlogc : logCardCount (s.log ++ [e]) = logCardCount s.log := by
            rw [logCardCount, List.countP_append]
            simp [logCardCount, List.countP_cons, hca]
          unfold totalCards at hpre ⊢
          rw [hres', hhands', hlog', hcc', hlogc]
          rw [hcol] at hpre ⊢
          omega
    · rw [if_neg hg]
      exact ⟨hcol, hnd, heta, hstr, hcons⟩
  | endTurn =>
    simp only [step]
    rcases he : end_turn g s pepper secret with e | s'
    · exact ⟨hcol, hnd, heta, hstr, hcons⟩
    · show Inv5 s'
      rcases end_turn_ok_inv g s pepper secret s' he with
        ⟨_, rfl⟩ | ⟨hdls, _, rfl⟩ | ⟨hdls, _, rfl⟩ |
        ⟨p, s2, hdls, herr, hp, hs2, hnz, rfl⟩
      · exact ⟨hcol, hnd, heta, hstr, hcons⟩
      · have hpre : totalCards s = s.colourCount * cardDistPerColour.sum :=
          hcons (Or.inl (heta hdls))
        refine ⟨hcol, hnd, ?_, ?_, ?_⟩
        · intro hc
          exact absurd hc (by simp [stop_game])
        · intro q hq
          rw [show (stop_game s 0).activePlayer = none from rfl] at hq
          exact absurd hq (by simp)
        · intro _
          exact hpre
      · have hpre : totalCards s = s.colourCount * cardDistPerColour.sum :=
          hcons (Or.inl (heta hdls))
        refine ⟨hcol, hnd, ?_, ?_, ?_⟩
        · intro hc
          exact absurd hc (by simp [stop_game])
        · intro q hq
          rw [show (stop_game s s.fireworks.sum).activePlayer = none from rfl] at hq
          exact absurd hq (by simp)
        · intro _
          exact hpre
      · rcases hs2 with h2eq | ⟨hneed, s1, n, c, hdr, hcase⟩
        · subst h2eq
          refine ⟨hcol, hnd, ?_, ?_, ?_⟩
          · intro hc
            exact absurd hc (by simp)
          · intro q hq
            simp only [] at hq
            obtain rfl : (p + 1) % s2.playersPresent = q := by injection hq
            obtain ⟨hplt, hhlen, hmem⟩ := hstr p hp
            exact ⟨Nat.mod_lt _ (by omega), hhlen, hmem⟩
          · intro _
            exact hcons (Or.inl (by rw [hp]; rfl))
        · rcases hcase with ⟨hz, h2eq⟩ | ⟨hz, h2eq⟩ <;> subst h2eq
          · obtain ⟨hplt, hhlen, hmem⟩ := hstr p hp
            have hplth : p < s.hands.length := by omega
            have hhl : (s.hands.getD p []).length = s.cardsInHand :=
              hmem _ (getD_mem s.hands p hplth)
            obtain ⟨posq, d', r', hf, hge, hdr1, hneq, hs1eq⟩ :=
              draw_card_ok_inv g s p pepper secret s1 n c hdr
            subst hs1eq
            obtain ⟨hfl, hfv⟩ := firstFreeSlot_spec (queryHand s p) posq hf
            rw [queryHand_length] at hfl
            rw [queryHand_getD s p posq hfl] at hfv
            have hposlen : posq < (s.hands.getD p []).length := by omega
            obtain ⟨hdt, hkeys⟩ := draw1_spec g s.reserves _ hnd c d' r' hdr1
            have hcount1 := handCount_set (s.hands.getD p []) posq (some c) hposlen
            rw [hfv] at hcount1
            simp only [Option.isSome_some, Option.isSome_none, Bool.false_eq_true,
              ite_true, ite_false] at hcount1
            have hcount2 := handsCount_set s.hands p
              ((s.hands.getD p []).set posq (some c)) hplth
            have hpre : totalCards s = s.colourCount * cardDistPerColour.sum :=
              hcons (Or.inl (by rw [hp]; rfl))
            refine ⟨?_, ?_, ?_, ?_, ?_⟩
            · show s.colourCount = 5
              exact hcol
            · show (d'.map Prod.fst).Nodup
              rw [hkeys]
              exact hnd
            · intro hc
              exact absurd hc (by simp)
            · intro q hq
              simp only [] at hq
              obtain rfl : (p + 1) % s.playersPresent = q := by injection hq
              refine ⟨Nat.mod_lt _ (by omega), ?_, ?_⟩
              · show (s.hands.set p ((s.hands.getD p []).set posq (some c))).length =
                  s.playersPresent
                rw [List.length_set]
                exact hhlen
              · show ∀ h ∈ s.hands.set p ((s.hands.getD p []).set posq (some c)),
                  h.length = s.cardsInHand
                intro hh hm
                rcases List.mem_or_eq_of_mem_set hm with hm2 | rfl
                · exact hmem hh hm2
                · rw [List.length_set]
                  exact hhl
            · intro _
              show deckTotal d' +
                  handsCount (s.hands.set p ((s.hands.getD p []).set posq (some c))) +
                  logCardCount s.log = s.colourCount * cardDistPerColour.sum
              unfold totalCards at hpre
              rw [hcol] at hpre ⊢
              omega
          · obtain ⟨hplt, hhlen, hmem⟩ := hstr p hp
            have hplth : p < s.hands.length := by omega
            have hhl : (s.hands.getD p []).length = s.cardsInHand :=
              hmem _ (getD_mem s.hands p hplth)
            obtain ⟨posq, d', r', hf, hge, hdr1, hneq, hs1eq⟩ :=
              draw_card_ok_inv g s p pepper secret s2 n c hdr
            subst hs1eq
            obtain ⟨hfl, hfv⟩ := firstFreeSlot_spec (queryHand s p) posq hf
            rw [queryHand_length] at hfl
            rw [queryHand_getD s p posq hfl] at hfv
            have hposlen : posq < (s.hands.getD p []).length := by omega
            obtain ⟨hdt, hkeys⟩ := draw1_spec g s.reserves _ hnd c d' r' hdr1
            have hcount1 := handCount_set (s.hands.getD p []) posq (some c) hposlen
            rw [hfv] at hcount1
            simp only [Option.isSome_some, Option.isSome_none, Bool.false_eq_true,
              ite_true, ite_false] at hcount1
            have hcount2 := handsCount_set s.hands p
              ((s.hands.getD p []).set posq (some c)) hplth
            have hpre : totalCards s = s.colourCount * cardDistPerColour.sum :=
              hcons (Or.inl (by rw [hp]; rfl))
            refine ⟨?_, ?_, ?_, ?_, ?_⟩
            · show s.colourCount = 5
              exact hcol
            · show (d'.map Prod.fst).Nodup
              rw [hkeys]
              exact hnd
            · intro hc
              exact absurd hc (by simp)
            · intro q hq
              simp only [] at hq
              obtain rfl : (p + 1) % s.playersPresent = q := by injection hq
              refine ⟨Nat.mod_lt _ (by omega), ?_, ?_⟩
              · show (s.hands.set p ((s.hands.getD p []).set posq (some c))).length =
                  s.playersPresent
                rw [List.length_set]
                exact hhlen
              · show ∀ h ∈ s.hands.set p ((s.hands.getD p []).set posq (some c)),
                  h.length = s.cardsInHand
                intro hh hm
                rcases List.mem_or_eq_of_mem_set hm with hm2 | rfl
                · exact hmem hh hm2
                · rw [List.length_set]
                  exact hhl
            · intro _
              show deckTotal d' +
                  handsCount (s.hands.set p ((s.hands.getD p []).set posq (some c))) +
                  logCardCount s.log = s.colourCount * cardDistPerColour.sum
              unfold totalCards at hpre
              rw [hcol] at hpre ⊢
              omega

/-- `Inv5` holds along any run. -/
theorem inv5_run (g : String → Nat → Nat → Nat) (pepper secret : String)
    (l : List GAction) (s : GameState) (h : Inv5 s) :
    Inv5 (runActions g pepper secret s l) := by
  induction l generalizing s with
  | nil => exact h
  | cons a rest ih => exact ih (step g pepper secret s a) (inv5_step g pepper secret s a h)

/-- A fresh session satisfies `Inv5`. -/
theorem inv5_initial : Inv5 initialSession := by
  refine ⟨rfl, List.nodup_nil, ?_, ?_, ?_⟩
  · intro hc
    exact absurd hc (by decide)
  · intro p hp
    exact absurd hp (by simp [initialSession])
  · intro hc
    rcases hc with hc | hc <;> exact absurd hc (by decide)

/-- C5: in every reachable state of a session that is running or has ended
(i.e. has been started), the sum of remaining reserve counts, cards held in
hands, and cards played or discarded per the log equals the configured colour
count times the per-colour distribution total. -/
theorem C5_card_conservation (g : String → Nat → Nat → Nat) (pepper secret : String)
    (l : List GAction)
    (h : (runActions g pepper secret initialSession l).activePlayer.isSome = true ∨
         (runActions g pepper secret initialSession l).finalScore.isSome = true) :
    totalCards (runActions g pepper secret initialSession l) =
      (runActions g pepper secret initialSession l).colourCount * cardDistPerColour.sum := by
  obtain ⟨_, _, _, _, hcons⟩ := inv5_run g pepper secret l initialSession inv5_initial
  exact hcons h

/-- Witness for C5: a two-player game after the initial deal. -/
theorem C5_card_conservation_witness :
    ((runActions gZero "pp" "ss" initialSession
        [.join "a", .join "b", .start]).activePlayer.isSome = true ∨
     (runActions gZero "pp" "ss" initialSession
        [.join "a", .join "b", .start]).finalScore.isSome = true) ∧
    totalCards (runActions gZero "pp" "ss" initialSession
        [.join "a", .join "b", .start]) =
      (runActions gZero "pp" "ss" initialSession
        [.join "a", .join "b", .start]).colourCount * cardDistPerColour.sum :=
  ⟨Or.inl (by decide), C5_card_conservation gZero "pp" "ss" [.join "a", .join "b", .start]
    (Or.inl (by decide))⟩

/-- Writing one player's hand leaves the other hands unchanged. -/
theorem getD_set_ne_hands (l : List (List (Option CardType))) (v q : Nat)
    (x : List (Option CardType)) (h : q ≠ v) :
    (l.set v x).getD q [] = l.getD q [] := by
  rw [List.getD_eq_getElem?_getD, List.getD_eq_getElem?_getD, List.getElem?_set_ne]
  omega

/-- Indexing a map over a range. -/
theorem range_map_get? (n q : Nat) (f : Nat → PlayerView) (h : q < n) :
    ((List.range n).map f).get? q = some (f q) := by
  rw [List.get?_eq_getElem?, List.getElem?_map, List.getElem?_range h]
  rfl

/-- Another player's hand view ignores a write to the viewer's hand. -/
theorem otherHandView_set (s : GameState) (v q : Nat) (h2 : List (Option CardType))
    (h : q ≠ v) :
    otherHandView { s with hands := s.hands.set v h2 } q = otherHandView s q := by
  unfold otherHandView
  apply List.map_congr_left
  intro i _
  show ((s.hands.set v h2).getD q []).getD i none = (s.hands.getD q []).getD i none
  rw [getD_set_ne_hands s.hands v q h2 h]

/-- The viewer's occupancy view is unchanged by replacing their cards with any
hand of the same occupancy. -/
theorem usedSlotsView_set (s : GameState) (v : Nat) (h2 : List (Option CardType))
    (hocc : ∀ i, i < s.cardsInHand →
      ((s.hands.getD v []).getD i none).isSome = (h2.getD i none).isSome) :
    usedSlotsView { s with hands := s.hands.set v h2 } v = usedSlotsView s v := by
  unfold usedSlotsView
  apply List.map_congr_left
  intro i hm
  have hi : i < s.cardsInHand := List.mem_range.mp hm
  show (((s.hands.set v h2).getD v []).getD i none).isSome =
    ((s.hands.getD v []).getD i none).isSome
  by_cases hv : v < s.hands.length
  · have : (s.hands.set v h2).getD v [] = h2 := by
      rw [List.getD_eq_getElem?_getD, List.getElem?_set_eq_of_lt h2 hv]
      rfl
    rw [this, ← hocc i hi]
  · rw [List.set_eq_of_length_le (by omega)]

/-- The roster view for viewer `v` ignores a write to `v`'s hand. -/
theorem playerViews_set (s : GameState) (v : Nat) (h2 : List (Option CardType)) :
    playerViews { s with hands := s.hands.set v h2 } (some v) =
      playerViews s (some v) := by
  unfold playerViews
  apply List.map_congr_left
  intro q _
  by_cases hq : q = v
  · simp [hq]
  · simp only [hq, if_neg, ite_false]
    rw [show ({ s with hands := s.hands.set v h2 } : GameState).playerNames =
      s.playerNames from rfl]
    rw [otherHandView_set s v q h2 hq]

/-- C9: for a running session viewed by player `v`, the response shows every
other seated player's full hand slot by slot, shows for `v` only which slots
are occupied, and is unchanged when the card identities in `v`'s hand change
(with the same occupancy). -/
theorem C9_view_hides_own_hand (s : GameState) (v : Nat) (h2 : List (Option CardType))
    (hrun : s.activePlayer.isSome = true)
    (hocc : ∀ i, i < s.cardsInHand →
      ((s.hands.getD v []).getD i none).isSome = (h2.getD i none).isSome) :
    (∀ q, q < s.playersPresent → q ≠ v →
        (session_state s (some v)).players.get? q =
          some { position := q, name := s.playerNames.getD q "",
                 hand := some (otherHandView s q) }) ∧
    (session_state s (some v)).usedHandSlots = some (usedSlotsView s v) ∧
    session_state { s with hands := s.hands.set v h2 } (some v) =
      session_state s (some v) := by
  have hnone : s.activePlayer.isNone = false := by
    rcases hs : s.activePlayer with _ | p
    · rw [hs] at hrun; exact absurd hrun (by simp)
    · rfl
  refine ⟨?_, ?_, ?_⟩
  · intro q hq hqv
    unfold session_state
    simp only [hnone, Bool.false_eq_true, if_neg, ite_false]
    show (playerViews s (some v)).get? q = _
    unfold playerViews
    rw [range_map_get? s.playersPresent q _ hq]
    simp [hqv]
  · unfold session_state
    simp only [hnone, Bool.false_eq_true, if_neg, ite_false]
    rfl
  · unfold session_state
    simp only [hnone, Bool.false_eq_true, if_neg, ite_false, Option.map_some']
    rw [playerViews_set s v h2, usedSlotsView_set s v h2 hocc]
    rfl

/-- Witness for C9: `demoState` viewed by player 0, with the viewer's cards
replaced by different identities at the same occupied slots. -/
theorem C9_view_hides_own_hand_witness :
    (demoState.activePlayer.isSome = true ∧
     (∀ i, i < demoState.cardsInHand →
        ((demoState.hands.getD 0 []).getD i none).isSome =
          (c9Hand.getD i none).isSome)) ∧
    ((∀ q, q < demoState.playersPresent → q ≠ 0 →
        (session_state demoState (some 0)).players.get? q =
          some { position := q, name := demoState.playerNames.getD q "",
                 hand := some (otherHandView demoState q) }) ∧
     (session_state demoState (some 0)).usedHandSlots =
        some (usedSlotsView demoState 0) ∧
     session_state { demoState with hands := demoState.hands.set 0 c9Hand } (some 0) =
        session_state demoState (some 0)) :=
  ⟨⟨by decide, by decide⟩,
   C9_view_hides_own_hand demoState 0 c9Hand (by decide) (by decide)⟩

theorem use_card_setTime (s : GameState) (e : Option Nat) (pos : Nat) :
    use_card (setTime s e) pos =
      (use_card s pos).map fun r => (r.1, setTime r.2 e) := by
  cases s
  unfold use_card setTime
  simp only []
  split
  · split
    · rfl
    · split
      · rfl
      · rfl
  · rfl

theorem play_card_setTime (s : GameState) (e : Option Nat) (pos now : Nat) :
    play_card (setTime s e) pos now = play_card s pos now := by
  unfold play_card
  rw [use_card_setTime]
  rcases use_card s pos with err | ⟨ct, s1⟩
  · rfl
  · simp only [Except.map, setTime]
    split
    · rfl
    · next fw hfw =>
      by_cases hpl : fw = (ct.numValue : Int) - 1
      · rw [if_pos hpl, if_pos hpl]
        by_cases h5 : ct.numValue = 5 ∧ s1.tokensRemaining < s1.maxTokens
        · rw [if_pos h5, if_pos h5]
          simp only []
          split <;> rfl
        · rw [if_neg h5, if_neg h5]
          simp only []
          split <;> rfl
      · rw [if_neg hpl, if_neg hpl]
        simp only []
        split <;> rfl

theorem eraseTime_setTime (s : GameState) (e : Option Nat) :
    eraseTime (setTime s e) = eraseTime s := rfl

theorem discard_card_setTime (s : GameState) (e : Option Nat) (pos now : Nat) :
    discard_card (setTime s e) pos now = discard_card s pos now := by
  unfold discard_card
  rw [show (setTime s e).tokensRemaining = s.tokensRemaining from rfl,
      show (setTime s e).maxTokens = s.maxTokens from rfl]
  by_cases hcap : s.tokensRemaining = s.maxTokens
  · rw [if_pos hcap, if_pos hcap]
  · rw [if_neg hcap, if_neg hcap]
    rw [use_card_setTime]
    rcases use_card s pos with err | ⟨ct, s1⟩
    · rfl
    · simp only [Except.map, setTime]
      split <;> rfl

theorem give_hint_setTime (s : GameState) (e : Option Nat) (target : Nat)
    (colour numValue : Option Nat) (now : Nat) :
    give_hint (setTime s e) target colour numValue now =
      give_hint s target colour numValue now := by
  unfold give_hint
  rw [show (setTime s e).activePlayer = s.activePlayer from rfl,
      show (setTime s e).tokensRemaining = s.tokensRemaining from rfl,
      show (setTime s e).playersPresent = s.playersPresent from rfl]
  by_cases h1 : colour.isNone = numValue.isNone
  · rw [if_pos h1, if_pos h1]
  · rw [if_neg h1, if_neg h1]
    by_cases h2 : s.activePlayer = some target
    · rw [if_pos h2, if_pos h2]
    · rw [if_neg h2, if_neg h2]
      by_cases h3 : s.tokensRemaining = 0
      · rw [if_pos h3, if_pos h3]
      · rw [if_neg h3, if_neg h3]
        by_cases h4 : s.playersPresent ≤ target
        · rw [if_pos h4, if_pos h4]
        · rw [if_neg h4, if_neg h4]
          simp only [setTime]
          split <;> rfl

theorem give_hint_now (s : GameState) (target : Nat) (colour numValue : Option Nat)
    (n1 n2 : Nat) :
    give_hint s target colour numValue n1 =
      (give_hint s target colour numValue n2).map fun s' =>
        setTime s' (some (n1 + s.postActionTimeLimit)) := by
  unfold give_hint
  by_cases h1 : colour.isNone = numValue.isNone
  · rw [if_pos h1, if_pos h1]; rfl
  · rw [if_neg h1, if_neg h1]
    by_cases h2 : s.activePlayer = some target
    · rw [if_pos h2, if_pos h2]; rfl
    · rw [if_neg h2, if_neg h2]
      by_cases h3 : s.tokensRemaining = 0
      · rw [if_pos h3, if_pos h3]; rfl
      · rw [if_neg h3, if_neg h3]
        by_cases h4 : s.playersPresent ≤ target
        · rw [if_pos h4, if_pos h4]; rfl
        · rw [if_neg h4, if_neg h4]
          rcases hact : s.activePlayer with _ | p
          · rfl
          · rfl

theorem session_join_setTime (s : GameState) (e : Option Nat) (name : String) :
    session_join (setTime s e) name =
      (session_join s name).map fun r => (setTime r.1 e, r.2) := by
  unfold session_join
  rw [show (setTime s e).activePlayer = s.activePlayer from rfl,
      show (setTime s e).playersPresent = s.playersPresent from rfl]
  by_cases hg : (s.activePlayer.isSome || decide (s.playersPresent > maxPlayers)) = true
  · rw [if_pos hg, if_pos hg]
    rfl
  · rw [if_neg hg, if_neg hg]
    rfl

theorem init_session_setTime (g : String → Nat → Nat → Nat) (s : GameState)
    (e : Option Nat) (pepper secret : String) :
    init_session g (setTime s e) pepper secret =
      (init_session g s pepper secret).map fun s' => setTime s' e := by
  unfold init_session
  rw [show (setTime s e).activePlayer = s.activePlayer from rfl,
      show (setTime s e).playersPresent = s.playersPresent from rfl]
  by_cases h1 : s.activePlayer.isSome = true
  · rw [if_pos h1, if_pos h1]
    rfl
  · rw [if_neg h1, if_neg h1]
    by_cases h2 : s.playersPresent < 2
    · rw [if_pos h2, if_pos h2]
      rfl
    · rw [if_neg h2, if_neg h2]
      rw [show initDeal g (setTime s e) pepper secret = initDeal g s pepper secret from rfl]
      split <;> rfl

theorem manage_session_post_setTime (g : String → Nat → Nat → Nat) (s : GameState)
    (e : Option Nat) (pepper secret : String) :
    manage_session_post g (setTime s e) pepper secret =
      (manage_session_post g s pepper secret).map fun s' => setTime s' e := by
  unfold manage_session_post
  rw [show (setTime s e).activePlayer = s.activePlayer from rfl,
      show (setTime s e).finalScore = s.finalScore from rfl,
      show (setTime s e).playersPresent = s.playersPresent from rfl]
  by_cases h1 : (s.activePlayer.isSome && s.finalScore.isNone) = true
  · rw [if_pos h1, if_pos h1]
    rfl
  · rw [if_neg h1, if_neg h1]
    by_cases h2 : s.playersPresent < 2
    · rw [if_pos h2, if_pos h2]
      rfl
    · rw [if_neg h2, if_neg h2]
      exact init_session_setTime g s e pepper secret

theorem draw_card_setTime (g : String → Nat → Nat → Nat) (s : GameState)
    (e : Option Nat) (p : Nat) (pepper secret : String) :
    draw_card g (setTime s e) p pepper secret =
      (draw_card g s p pepper secret).map fun r => (setTime r.1 e, r.2) := by
  unfold draw_card
  rw [show queryHand (setTime s e) p = queryHand s p from rfl]
  split
  · rfl
  · rw [show (setTime s e).reserves = s.reserves from rfl,
        show current_seed (setTime s e) pepper secret = current_seed s pepper secret from rfl]
    split
    · rfl
    · simp only [setTime]
      split <;> rfl

theorem play_card_err_use (s : GameState) (pos now : Nat) (e : HErr)
    (h : use_card s pos = .error e) : play_card s pos now = .error e := by
  unfold play_card
  rw [h]

theorem play_card_err_fw (s : GameState) (pos now : Nat) (ct : CardType) (s1 : GameState)
    (huc : use_card s pos = .ok (ct, s1))
    (hfw : s1.fireworks.get? ct.colour = none) :
    play_card s pos now = .error .gameStateError := by
  unfold play_card
  rw [huc]
  simp only []
  rw [hfw]

theorem play_card_err_act (s : GameState) (pos now : Nat) (ct : CardType) (s1 : GameState)
    (huc : use_card s pos = .ok (ct, s1)) (fw : Int)
    (hfw : s1.fireworks.get? ct.colour = some fw)
    (hp : s1.activePlayer = none) :
    play_card s pos now = .error .gameStateError := by
  unfold play_card
  rw [huc]
  simp only []
  rw [hfw]
  simp only []
  by_cases hpl : fw = (ct.numValue : Int) - 1
  · rw [if_pos hpl]
    by_cases h5 : ct.numValue = 5 ∧ s1.tokensRemaining < s1.maxTokens
    · rw [if_pos h5]
      simp only []
      rw [hp]
    · rw [if_neg h5]
      simp only []
      rw [hp]
  · rw [if_neg hpl]
    simp only []
    rw [hp]

theorem play_card_eq (s : GameState) (pos now : Nat) (ct : CardType) (s1 : GameState)
    (huc : use_card s pos = .ok (ct, s1)) (fw : Int)
    (hfw : s1.fireworks.get? ct.colour = some fw) (p : Nat)
    (hp : s1.activePlayer = some p) :
    play_card s pos now = .ok (finish_action (playResultState s1 ct fw)
      { turn := s1.turn, actionType := .PLAY, player := p, colour := some ct.colour,
        numValue := some ct.numValue, handPos := some pos,
        wasError := decide (¬ fw = (ct.numValue : Int) - 1), hintPositions := none,
        hintTarget := none } now) := by
  unfold play_card playResultState
  rw [huc]
  simp only []
  rw [hfw]
  simp only []
  by_cases hpl : fw = (ct.numValue : Int) - 1
  · rw [if_pos hpl]
    by_cases h5 : ct.numValue = 5 ∧ s1.tokensRemaining < s1.maxTokens
    · rw [if_pos h5]
      simp only []
      rw [hp]
    · rw [if_neg h5]
      simp only []
      rw [hp]
  · rw [if_neg hpl]
    simp only []
    rw [hp]

theorem play_card_now (s : GameState) (pos n1 n2 : Nat) :
    (play_card s pos n1).map eraseTime = (play_card s pos n2).map eraseTime := by
  rcases huc : use_card s pos with e | ⟨ct, s1⟩
  · rw [play_card_err_use s pos n1 e huc, play_card_err_use s pos n2 e huc]
  · rcases hfw : s1.fireworks.get? ct.colour with _ | fw
    · rw [play_card_err_fw s pos n1 ct s1 huc hfw, play_card_err_fw s pos n2 ct s1 huc hfw]
    · rcases hp : s1.activePlayer with _ | p
      · rw [play_card_err_act s pos n1 ct s1 huc fw hfw hp,
            play_card_err_act s pos n2 ct s1 huc fw hfw hp]
      · rw [play_card_eq s pos n1 ct s1 huc fw hfw p hp,
            play_card_eq s pos n2 ct s1 huc fw hfw p hp]
        rfl

theorem discard_card_err_cap (s : GameState) (pos now : Nat)
    (h : s.tokensRemaining = s.maxTokens) :
    discard_card s pos now = .error .actionNotValid := by
  unfold discard_card
  rw [if_pos h]

theorem discard_card_err_use (s : GameState) (pos now : Nat) (e : HErr)
    (hcap : ¬ s.tokensRemaining = s.maxTokens)
    (h : use_card s pos = .error e) : discard_card s pos now = .error e := by
  unfold discard_card
  rw [if_neg hcap, h]

theorem discard_card_err_act (s : GameState) (pos now : Nat) (ct : CardType)
    (s1 : GameState) (hcap : ¬ s.tokensRemaining = s.maxTokens)
    (huc : use_card s pos = .ok (ct, s1)) (hp : s1.activePlayer = none) :
    discard_card s pos now = .error .gameStateError := by
  unfold discard_card
  rw [if_neg hcap, huc]
  simp only []
  rw [hp]

theorem discard_card_eq (s : GameState) (pos now : Nat) (ct : CardType) (s1 : GameState)
    (hcap : ¬ s.tokensRemaining = s.maxTokens)
    (huc : use_card s pos = .ok (ct, s1)) (p : Nat) (hp : s1.activePlayer = some p) :
    discard_card s pos now = .ok (finish_action
      { s1 with tokensRemaining := s1.tokensRemaining + 1 }
      { turn := s1.turn, actionType := .DISCARD, player := p, colour := some ct.colour,
        numValue := some ct.numValue, handPos := some pos, wasError := false,
        hintPositions := none, hintTarget := none } now) := by
  unfold discard_card
  rw [if_neg hcap, huc]
  simp only []
  rw [hp]

theorem discard_card_now (s : GameState) (pos n1 n2 : Nat) :
    (discard_card s pos n1).map eraseTime = (discard_card s pos n2).map eraseTime := by
  by_cases hcap : s.tokensRemaining = s.maxTokens
  · rw [discard_card_err_cap s pos n1 hcap, discard_card_err_cap s pos n2 hcap]
  · rcases huc : use_card s pos with e | ⟨ct, s1⟩
    · rw [discard_card_err_use s pos n1 e hcap huc, discard_card_err_use s pos n2 e hcap huc]
    · rcases hp : s1.activePlayer with _ | p
      · rw [discard_card_err_act s pos n1 ct s1 hcap huc hp,
            discard_card_err_act s pos n2 ct s1 hcap huc hp]
      · rw [discard_card_eq s pos n1 ct s1 hcap huc p hp,
            discard_card_eq s pos n2 ct s1 hcap huc p hp]
        rfl

theorem give_hint_now2 (s : GameState) (target : Nat) (colour numValue : Option Nat)
    (n1 n2 : Nat) :
    (give_hint s target colour numValue n1).map eraseTime =
      (give_hint s target colour numValue n2).map eraseTime := by
  rcases hg : give_hint s target colour numValue n2 with e | s'
  · rw [give_hint_now s target colour numValue n1 n2, hg]
    rfl
  · rw [give_hint_now s target colour numValue n1 n2, hg]
    rfl

theorem setTime_self (s : GameState) : setTime s s.endTurnAt = s := by
  cases s
  rfl

theorem isNone_eq_of_isSome_eq (a b : Option Nat) (h : a.isSome = b.isSome) :
    a.isNone = b.isNone := by
  cases a <;> cases b <;> simp_all

theorem end_turn_setTime_none (g : String → Nat → Nat → Nat) (s : GameState)
    (pepper secret : String) :
    end_turn g (setTime s none) pepper secret = .ok (setTime s none) := rfl

theorem end_turn_setTime_some (g : String → Nat → Nat → Nat) (s : GameState)
    (t1 t2 : Nat) (pepper secret : String) :
    end_turn g (setTime s (some t1)) pepper secret =
      end_turn g (setTime s (some t2)) pepper secret := by
  unfold end_turn
  rw [show (setTime s (some t1)).endTurnAt = some t1 from rfl,
      show (setTime s (some t2)).endTurnAt = some t2 from rfl]
  simp only []
  rw [show (setTime s (some t1)).errorsRemaining = s.errorsRemaining from rfl,
      show (setTime s (some t2)).errorsRemaining = s.errorsRemaining from rfl]
  by_cases herr : s.errorsRemaining = 0
  · rw [if_pos herr, if_pos herr]
    rfl
  · rw [if_neg herr, if_neg herr]
    rw [show (setTime s (some t1)).fireworks = s.fireworks from rfl,
        show (setTime s (some t2)).fireworks = s.fireworks from rfl,
        show (setTime s (some t1)).colourCount = s.colourCount from rfl,
        show (setTime s (some t2)).colourCount = s.colourCount from rfl,
        show (setTime s (some t1)).activePlayer = s.activePlayer from rfl,
        show (setTime s (some t2)).activePlayer = s.activePlayer from rfl,
        show (setTime s (some t1)).stopGameAfter = s.stopGameAfter from rfl,
        show (setTime s (some t2)).stopGameAfter = s.stopGameAfter from rfl]
    by_cases hsc : s.fireworks.sum = ((s.colourCount * maxNumValue : Nat) : Int) ∨
        s.activePlayer = s.stopGameAfter
    · rw [if_pos hsc, if_pos hsc]
      rfl
    · rw [if_neg hsc, if_neg hsc]
      rcases hact : s.activePlayer with _ | p
      · rfl
      · simp only []
        rw [show (setTime s (some t1)).needDraw = s.needDraw from rfl,
            show (setTime s (some t2)).needDraw = s.needDraw from rfl]
        by_cases hnd : s.needDraw = true
        · rw [if_pos hnd, if_pos hnd,
              draw_card_setTime g s (some t1) p pepper secret,
              draw_card_setTime g s (some t2) p pepper secret]
          rcases hdc : draw_card g s p pepper secret with e | ⟨s', n, c⟩
          · rcases e <;> rfl
          · simp only [Except.map]
            by_cases hz : n = 0
            · rw [if_pos hz, if_pos hz]
              rfl
            · rw [if_neg hz, if_neg hz]
              rfl
        · rw [if_neg hnd, if_neg hnd]
          rfl

theorem eq_setTime_of_eraseTime (s₁ s₂ : GameState)
    (h : eraseTime s₁ = eraseTime s₂) : s₂ = setTime s₁ s₂.endTurnAt := by
  cases s₁
  cases s₂
  simp only [eraseTime, setTime, GameState.mk.injEq] at h ⊢
  simp_all

theorem stepTrace_start_setTime (g : String → Nat → Nat → Nat)
    (pepper secret : String) (s : GameState) (e : Option Nat) :
    stepTrace g pepper secret (setTime s e) .start =
      stepTrace g pepper secret s .start := rfl

theorem stepTrace_endTurn_setTime_some (g : String → Nat → Nat → Nat)
    (pepper secret : String) (s : GameState) (t1 t2 : Nat) :
    stepTrace g pepper secret (setTime s (some t1)) .endTurn =
      stepTrace g pepper secret (setTime s (some t2)) .endTurn := by
  unfold stepTrace
  rw [show (setTime s (some t1)).endTurnAt = some t1 from rfl,
      show (setTime s (some t2)).endTurnAt = some t2 from rfl]
  simp only []
  rw [show (setTime s (some t1)).errorsRemaining = s.errorsRemaining from rfl,
      show (setTime s (some t2)).errorsRemaining = s.errorsRemaining from rfl]
  by_cases herr : s.errorsRemaining = 0
  · rw [if_pos herr, if_pos herr]
  · rw [if_neg herr, if_neg herr]
    rw [show (setTime s (some t1)).fireworks = s.fireworks from rfl,
        show (setTime s (some t2)).fireworks = s.fireworks from rfl,
        show (setTime s (some t1)).colourCount = s.colourCount from rfl,
        show (setTime s (some t2)).colourCount = s.colourCount from rfl,
        show (setTime s (some t1)).activePlayer = s.activePlayer from rfl,
        show (setTime s (some t2)).activePlayer = s.activePlayer from rfl,
        show (setTime s (some t1)).stopGameAfter = s.stopGameAfter from rfl,
        show (setTime s (some t2)).stopGameAfter = s.stopGameAfter from rfl]
    by_cases hsc : s.fireworks.sum = ((s.colourCount * maxNumValue : Nat) : Int) ∨
        s.activePlayer = s.stopGameAfter
    · rw [if_pos hsc, if_pos hsc]
    · rw [if_neg hsc, if_neg hsc]
      rcases hact : s.activePlayer with _ | p
      · rfl
      · simp only []
        rw [show (setTime s (some t1)).needDraw = s.needDraw from rfl,
            show (setTime s (some t2)).needDraw = s.needDraw from rfl]
        by_cases hnd : s.needDraw = true
        · rw [if_pos hnd, if_pos hnd,
              draw_card_setTime g s (some t1) p pepper secret,
              draw_card_setTime g s (some t2) p pepper secret]
          rcases hdc : draw_card g s p pepper secret with e | ⟨s', n, c⟩
          · rcases e <;> rfl
          · rfl
        · rw [if_neg hnd, if_neg hnd]

theorem timeRel_setTime (s : GameState) (e : Option Nat)
    (h : s.endTurnAt.isSome = e.isSome) : TimeRel s (setTime s e) := ⟨rfl, h⟩

theorem stepRel_join (g : String → Nat → Nat → Nat) (pepper secret : String)
    (s : GameState) (e : Option Nat) (hS : s.endTurnAt.isSome = e.isSome)
    (name : String) :
    TimeRel (step g pepper secret s (.join name))
      (step g pepper secret (setTime s e) (.join name)) := by
  simp only [step]
  rw [session_join_setTime s e name]
  rcases hj : session_join s name with er | ⟨s', k⟩
  · exact timeRel_setTime s e hS
  · simp only [Except.map]
    have hend : s'.endTurnAt = s.endTurnAt := by
      rcases session_join_ok_inv s name s' k hj with ⟨hlt, hle, hk, hs'⟩
      rw [hs']
    exact timeRel_setTime s' e (by rw [hend]; exact hS)

theorem manage_post_endTurnAt (g : String → Nat → Nat → Nat) (s : GameState)
    (pepper secret : String) (s' : GameState)
    (h : manage_session_post g s pepper secret = .ok s') :
    s'.endTurnAt = s.endTurnAt := by
  unfold manage_session_post at h
  split at h
  · simp only [Except.ok.injEq] at h
    rw [← h]
  · split at h
    · simp at h
    · rcases init_session_ok_inv g s pepper secret s' h with ⟨_, rfl⟩ |
          ⟨_, _, hands, deckRest, r, _, hs'⟩
      · rfl
      · rw [hs']
        rfl

theorem stepRel_start (g : String → Nat → Nat → Nat) (pepper secret : String)
    (s : GameState) (e : Option Nat) (hS : s.endTurnAt.isSome = e.isSome) :
    TimeRel (step g pepper secret s .start)
      (step g pepper secret (setTime s e) .start) := by
  simp only [step]
  rw [manage_session_post_setTime g s e pepper secret]
  rcases hm : manage_session_post g s pepper secret with er | s'
  · exact timeRel_setTime s e hS
  · simp only [Except.map]
    exact timeRel_setTime s' e
      (by rw [manage_post_endTurnAt g s pepper secret s' hm]; exact hS)

theorem play_card_ok_endTurnAt (s : GameState) (pos now : Nat) (s' : GameState)
    (h : play_card s pos now = .ok s') :
    s'.endTurnAt = some (now + s.postActionTimeLimit) := by
  obtain ⟨p, ct, e, -, -, -, -, -, -, -, -, he, -⟩ := play_card_ok_inv s pos now s' h
  exact he

theorem discard_card_ok_endTurnAt (s : GameState) (pos now : Nat) (s' : GameState)
    (h : discard_card s pos now = .ok s') :
    s'.endTurnAt = some (now + s.postActionTimeLimit) := by
  obtain ⟨p, ct, e, -, -, -, -, -, -, -, -, -, he, -⟩ := discard_card_ok_inv s pos now s' h
  exact he

theorem give_hint_ok_endTurnAt (s : GameState) (target : Nat)
    (colour numValue : Option Nat) (now : Nat) (s' : GameState)
    (h : give_hint s target colour numValue now = .ok s') :
    s'.endTurnAt = some (now + s.postActionTimeLimit) := by
  obtain ⟨p, e, -, -, -, -, -, -, he, -⟩ := give_hint_ok_inv s target colour numValue now s' h
  exact he

theorem setTime_none_eq (s : GameState) (h : s.endTurnAt = none) :
    setTime s none = s := by
  have h2 := setTime_self s
  rw [h] at h2
  exact h2

theorem stepRel_play (g : String → Nat → Nat → Nat) (pepper secret : String)
    (s : GameState) (e : Option Nat) (hS : s.endTurnAt.isSome = e.isSome)
    (pos n1 n2 : Nat) :
    TimeRel (step g pepper secret s (.play pos n1))
      (step g pepper secret (setTime s e) (.play pos n2)) := by
  simp only [step]
  rw [show (setTime s e).activePlayer = s.activePlayer from rfl,
      show (setTime s e).endTurnAt = e from rfl]
  have hnone : e.isNone = s.endTurnAt.isNone := (isNone_eq_of_isSome_eq _ _ hS).symm
  rw [hnone]
  by_cases hg : (s.activePlayer.isSome && s.endTurnAt.isNone) = true
  · rw [if_pos hg, if_pos hg]
    have h1 : s.endTurnAt = none :=
      Option.isNone_iff_eq_none.mp (Bool.and_eq_true_iff.mp hg).2
    have h2 : e = none := by
      apply Option.isNone_iff_eq_none.mp
      rw [hnone, h1]
      rfl
    subst h2
    rw [setTime_none_eq s h1]
    have hnow := play_card_now s pos n1 n2
    rcases h1' : play_card s pos n1 with er1 | t1 <;>
      rcases h2' : play_card s pos n2 with er2 | t2
    · exact ⟨rfl, rfl⟩
    · rw [h1', h2'] at hnow
      simp [Except.map] at hnow
    · rw [h1', h2'] at hnow
      simp [Except.map] at hnow
    · rw [h1', h2'] at hnow
      simp only [Except.map, Except.ok.injEq] at hnow
      refine ⟨hnow, ?_⟩
      rw [play_card_ok_endTurnAt s pos n1 t1 h1',
          play_card_ok_endTurnAt s pos n2 t2 h2']
      rfl
  · rw [if_neg hg, if_neg hg]
    exact timeRel_setTime s e hS

theorem stepRel_discard (g : String → Nat → Nat → Nat) (pepper secret : String)
    (s : GameState) (e : Option Nat) (hS : s.endTurnAt.isSome = e.isSome)
    (pos n1 n2 : Nat) :
    TimeRel (step g pepper secret s (.discard pos n1))
      (step g pepper secret (setTime s e) (.discard pos n2)) := by
  simp only [step]
  rw [show (setTime s e).activePlayer = s.activePlayer from rfl,
      show (setTime s e).endTurnAt = e from rfl]
  have hnone : e.isNone = s.endTurnAt.isNone := (isNone_eq_of_isSome_eq _ _ hS).symm
  rw [hnone]
  by_cases hg : (s.activePlayer.isSome && s.endTurnAt.isNone) = true
  · rw [if_pos hg, if_pos hg]
    have h1 : s.endTurnAt = none :=
      Option.isNone_iff_eq_none.mp (Bool.and_eq_true_iff.mp hg).2
    have h2 : e = none := by
      apply Option.isNone_iff_eq_none.mp
      rw [hnone, h1]
      rfl
    subst h2
    rw [setTime_none_eq s h1]
    have hnow := discard_card_now s pos n1 n2
    rcases h1' : discard_card s pos n1 with er1 | t1 <;>
      rcases h2' : discard_card s pos n2 with er2 | t2
    · exact ⟨rfl, rfl⟩
    · rw [h1', h2'] at hnow
      simp [Except.map] at hnow
    · rw [h1', h2'] at hnow
      simp [Except.map] at hnow
    · rw [h1', h2'] at hnow
      simp only [Except.map, Except.ok.injEq] at hnow
      refine ⟨hnow, ?_⟩
      rw [discard_card_ok_endTurnAt s pos n1 t1 h1',
          discard_card_ok_endTurnAt s pos n2 t2 h2']
      rfl
  · rw [if_neg hg, if_neg hg]
    exact timeRel_setTime s e hS

theorem stepRel_hint (g : String → Nat → Nat → Nat) (pepper secret : String)
    (s : GameState) (e : Option Nat) (hS : s.endTurnAt.isSome = e.isSome)
    (target : Nat) (colour numValue : Option Nat) (n1 n2 : Nat) :
    TimeRel (step g pepper secret s (.hint target colour numValue n1))
      (step g pepper secret (setTime s e) (.hint target colour numValue n2)) := by
  simp only [step]
  rw [show (setTime s e).activePlayer = s.activePlayer from rfl,
      show (setTime s e).endTurnAt = e from rfl]
  have hnone : e.isNone = s.endTurnAt.isNone := (isNone_eq_of_isSome_eq _ _ hS).symm
  rw [hnone]
  by_cases hg : (s.activePlayer.isSome && s.endTurnAt.isNone) = true
  · rw [if_pos hg, if_pos hg]
    have h1 : s.endTurnAt = none :=
      Option.isNone_iff_eq_none.mp (Bool.and_eq_true_iff.mp hg).2
    have h2 : e = none := by
      apply Option.isNone_iff_eq_none.mp
      rw [hnone, h1]
      rfl
    subst h2
    rw [setTime_none_eq s h1]
    have hnow := give_hint_now2 s target colour numValue n1 n2
    rcases h1' : give_hint s target colour numValue n1 with er1 | t1 <;>
      rcases h2' : give_hint s target colour numValue n2 with er2 | t2
    · exact ⟨rfl, rfl⟩
    · rw [h1', h2'] at hnow
      simp [Except.map] at hnow
    · rw [h1', h2'] at hnow
      simp [Except.map] at hnow
    · rw [h1', h2'] at hnow
      simp only [Except.map, Except.ok.injEq] at hnow
      refine ⟨hnow, ?_⟩
      rw [give_hint_ok_endTurnAt s target colour numValue n1 t1 h1',
          give_hint_ok_endTurnAt s target colour numValue n2 t2 h2']
      rfl
  · rw [if_neg hg, if_neg hg]
    exact timeRel_setTime s e hS

theorem stepRel_endTurn (g : String → Nat → Nat → Nat) (pepper secret : String)
    (s : GameState) (e : Option Nat) (hS : s.endTurnAt.isSome = e.isSome) :
    TimeRel (step g pepper secret s .endTurn)
      (step g pepper secret (setTime s e) .endTurn) ∧
    stepTrace g pepper secret s .endTurn =
      stepTrace g pepper secret (setTime s e) .endTurn := by
  rcases h1 : s.endTurnAt with _ | t1
  · have h2 : e = none := by
      cases e
      · rfl
      · rw [h1] at hS
        simp at hS
    subst h2
    rw [setTime_none_eq s h1]
    exact ⟨⟨rfl, rfl⟩, rfl⟩
  · obtain ⟨t2, rfl⟩ : ∃ t2, e = some t2 := by
      cases e
      · rw [h1] at hS
        simp at hS
      · exact ⟨_, rfl⟩
    have hs : s = setTime s (some t1) := by
      rw [← h1]
      exact (setTime_self s).symm
    have het : end_turn g s pepper secret = end_turn g (setTime s (some t2)) pepper secret := by
      conv_lhs => rw [hs]
      exact end_turn_setTime_some g s t1 t2 pepper secret
    constructor
    · simp only [step]
      rw [← het]
      rcases he : end_turn g s pepper secret with er | s'
      · exact timeRel_setTime s (some t2) (by rw [h1]; rfl)
      · exact ⟨rfl, rfl⟩
    · conv_lhs => rw [hs]
      exact stepTrace_endTurn_setTime_some g pepper secret s t1 t2

theorem stepRel_all (g : String → Nat → Nat → Nat) (pepper secret : String)
    (s₁ s₂ : GameState) (a₁ a₂ : GAction) (hR : TimeRel s₁ s₂)
    (hm : actionMatches a₁ a₂ = true) :
    TimeRel (step g pepper secret s₁ a₁) (step g pepper secret s₂ a₂) ∧
    stepTrace g pepper secret s₁ a₁ = stepTrace g pepper secret s₂ a₂ := by
  obtain ⟨hE, hS⟩ := hR
  obtain ⟨e, rfl⟩ : ∃ e, s₂ = setTime s₁ e :=
    ⟨s₂.endTurnAt, eq_setTime_of_eraseTime s₁ s₂ hE⟩
  cases a₁ <;> cases a₂ <;> simp only [actionMatches] at hm <;>
    try exact absurd hm (by decide)
  · rw [beq_iff_eq] at hm
    subst hm
    exact ⟨stepRel_join g pepper secret s₁ e hS _, rfl⟩
  · exact ⟨stepRel_start g pepper secret s₁ e hS,
      (stepTrace_start_setTime g pepper secret s₁ e).symm⟩
  · rw [beq_iff_eq] at hm
    subst hm
    exact ⟨stepRel_play g pepper secret s₁ e hS _ _ _, rfl⟩
  · rw [beq_iff_eq] at hm
    subst hm
    exact ⟨stepRel_discard g pepper secret s₁ e hS _ _ _, rfl⟩
  · simp only [Bool.and_eq_true_iff, beq_iff_eq] at hm
    obtain ⟨⟨hm1, hm2⟩, hm3⟩ := hm
    subst hm1
    subst hm2
    subst hm3
    exact ⟨stepRel_hint g pepper secret s₁ e hS _ _ _ _ _, rfl⟩
  · exact stepRel_endTurn g pepper secret s₁ e hS

theorem runRel (g : String → Nat → Nat → Nat) (pepper secret : String)
    (l₁ l₂ : List GAction) (s₁ s₂ : GameState) (hR : TimeRel s₁ s₂)
    (hm : actionsMatch l₁ l₂ = true) :
    runTrace g pepper secret s₁ l₁ = runTrace g pepper secret s₂ l₂ ∧
    TimeRel (runActions g pepper secret s₁ l₁) (runActions g pepper secret s₂ l₂) := by
  induction l₁ generalizing l₂ s₁ s₂ with
  | nil =>
    cases l₂
    · exact ⟨rfl, hR⟩
    · simp [actionsMatch] at hm
  | cons a l ih =>
    cases l₂ with
    | nil => simp [actionsMatch] at hm
    | cons b l' =>
      simp only [actionsMatch, Bool.and_eq_true_iff] at hm
      obtain ⟨hm1, hm2⟩ := hm
      obtain ⟨hRel, hTr⟩ := stepRel_all g pepper secret s₁ s₂ a b hR hm1
      obtain ⟨ih1, ih2⟩ := ih l' _ _ hRel hm2
      constructor
      · simp only [runTrace]
        rw [hTr, ih1]
      · simp only [runActions, List.foldl]
        exact ih2

/-- C8: two sessions with the same pepper and secret, states agreeing up to the
pending deadline's wall-clock value, and the same action sequence (up to
request timestamps) produce identical sequences of dealt cards — the initial
deal and every subsequent draw; and the per-turn seed is the deterministic
function `str(turn) + (pepper + secret)` of the turn number, pepper and
secret. -/
theorem C8_deal_determinism (g : String → Nat → Nat → Nat) (pepper secret : String)
    (s₁ s₂ : GameState) (l₁ l₂ : List GAction)
    (hset : eraseTime s₁ = eraseTime s₂)
    (hdl : s₁.endTurnAt.isSome = s₂.endTurnAt.isSome)
    (hact : actionsMatch l₁ l₂ = true) :
    runTrace g pepper secret s₁ l₁ = runTrace g pepper secret s₂ l₂ ∧
    ∀ s : GameState, current_seed s pepper secret = toString s.turn ++ (pepper ++ secret) :=
  ⟨(runRel g pepper secret l₁ l₂ s₁ s₂ ⟨hset, hdl⟩ hact).1, fun _ => rfl⟩

theorem C8_deal_determinism_witness :
    (eraseTime initialSession = eraseTime initialSession ∧
     initialSession.endTurnAt.isSome = initialSession.endTurnAt.isSome ∧
     actionsMatch
       [.join "ann", .join "bob", .start, .play 0 17, .endTurn]
       [.join "ann", .join "bob", .start, .play 0 99, .endTurn] = true) ∧
    runTrace gZero "pep" "sec" initialSession
        [.join "ann", .join "bob", .start, .play 0 17, .endTurn] =
      runTrace gZero "pep" "sec" initialSession
        [.join "ann", .join "bob", .start, .play 0 99, .endTurn] :=
  ⟨⟨rfl, rfl, by decide⟩,
   (C8_deal_determinism gZero "pep" "sec" initialSession initialSession
     [.join "ann", .join "bob", .start, .play 0 17, .endTurn]
     [.join "ann", .join "bob", .start, .play 0 99, .endTurn]
     rfl rfl (by decide)).1⟩
